import Mathlib

/-!
Verification development for the Argo-Blog-Static summary pipeline.

The Python sources embedded here are:
- `src/yt/import_summaries.py` : `parse_markdown_summary` (section splitting
  via `re.search`, bullet normalization, timestamp extraction) and the
  per-video update step of `main`;
- `src/scripts/generate_viz.py` : `generate_mindmap`, `extract_stats`,
  `detect_comparison`, `generate_viz_data` and the per-video step of `main`;
- `src/yt/record_video.py` : `validate_summary` (nested-summary repair and
  schema checks).

Python regular expressions are embedded as hand-determinized scanners over
`List Char`.  Each scanner carries a comment naming the regex it translates;
the determinization arguments (greedy runs over a character class followed by
a character outside the class never need backtracking, optional literals are
taken exactly when present because the skip branch then fails on the same
character, etc.) are noted where they are not immediate.  `\s` and `\d` are
modelled at ASCII granularity, which is faithful on the ASCII/CJK documents
this repository processes.
-/

namespace Argo

/-- Python `\s` (ASCII part): space, tab, newline, carriage return, vertical
tab, form feed. -/
def isPySpace (c : Char) : Bool :=
  c = ' ' || c = '\t' || c = '\n' || c = '\r' || c = Char.ofNat 11 || c = Char.ofNat 12

/-- Python `\d` (ASCII part). -/
def isPyDigit (c : Char) : Bool :=
  '0' ≤ c && c ≤ '9'

/-- Python `str.strip()` on a character list. -/
def pyStrip (cs : List Char) : List Char :=
  ((cs.dropWhile isPySpace).reverse.dropWhile isPySpace).reverse

/-- Right-trim of whitespace, used to describe what `re.sub` removal with a
leading `\s*` eats from the text before a removed token. -/
def rstripWs (cs : List Char) : List Char :=
  (cs.reverse.dropWhile isPySpace).reverse

/-- Value of a digit string, as Python `int` of a decimal literal. -/
def charsToNat (cs : List Char) : Nat :=
  cs.foldl (fun a c => 10 * a + (c.toNat - 48)) 0

/-- First `some` among `f` applied to the candidates, in order.  Used to model
the backtracking preference order of a regex engine. -/
def firstSome {α β : Type} (f : α → Option β) : List α → Option β
  | [] => none
  | a :: as =>
    match f a with
    | some b => some b
    | none => firstSome f as

/-- `re.search` position scan: try a match at every suffix, leftmost wins. -/
def searchAll {β : Type} (f : List Char → Option β) : List Char → Option β
  | [] => f []
  | s@(_ :: rest) =>
    match f s with
    | some b => some b
    | none => searchAll f rest

/-! ### Timestamp extraction, `import_summaries.py` line 31

`re.search(r'\[\[?(\d+):(\d+)\]?\]', text)`.  At a given start position the
pattern is deterministic: the optional second `[` is taken exactly when
present (otherwise `\d+` fails on `[` in both branches), the greedy digit
runs are followed by `:` and `]` which are not digits, and `\]?\]` only needs
one closing bracket to exist (the span length does not affect the captured
groups). -/

/-- Shared body of the timestamp pattern after the leading brackets:
the digit groups, the colon, and the first closing bracket.  Only the first
closing bracket matters for the captured groups. -/
def tsMatchBody (r1 : List Char) : Option (Nat × Nat) :=
  let d1 := r1.takeWhile isPyDigit
  let r2 := r1.dropWhile isPyDigit
  if d1.isEmpty then none else
  match r2 with
  | ':' :: r3 =>
    let d2 := r3.takeWhile isPyDigit
    let r4 := r3.dropWhile isPyDigit
    if d2.isEmpty then none else
    match r4 with
    | ']' :: _ => some (charsToNat d1, charsToNat d2)
    | _ => none
  | _ => none

/-- Attempt the timestamp pattern at the head of the suffix, returning the two
captured numbers. -/
def tsMatchAt : List Char → Option (Nat × Nat)
  | '[' :: r0 => tsMatchBody (if r0.head? = some '[' then r0.tail else r0)
  | _ => none

/-- Leftmost timestamp match in the text. -/
def tsSearch : List Char → Option (Nat × Nat)
  | [] => none
  | s@(_ :: rest) =>
    match tsMatchAt s with
    | some r => some r
    | none => tsSearch rest

/-! ### Timestamp-plus-link removal, `import_summaries.py` lines 35 and 49

`re.sub(r'\s*\[\[?\d+:\d+\]?\]\([^)]+\)', '', text)`.  The removal requires a
parenthesized link suffix after the brackets; a bare timestamp token is not
removed.  `[^)]+\)` is a nonempty greedy run of non-`)` characters closed by
`)`. -/

/-- The parenthesized link part `\([^)]+\)`; the `(` has been consumed by the
caller.  Returns the suffix after the closing `)`. -/
def tsParen (r : List Char) : Option (List Char) :=
  let body := r.takeWhile (fun c => c ≠ ')')
  let r2 := r.dropWhile (fun c => c ≠ ')')
  if body.isEmpty then none else
  match r2 with
  | ')' :: rest => some rest
  | _ => none

/-- `\]?\]\(` followed by the link: two brackets are consumed when a `(`
follows them, one bracket when `(` follows it directly; every other shape
fails (this is the collapse of the backtracking preference of the optional
bracket). -/
def tsBracketTail : List Char → Option (List Char)
  | ']' :: rest =>
    match rest with
    | ']' :: rest2 =>
      if rest2.head? = some '(' then tsParen rest2.tail else none
    | '(' :: rest2 => tsParen rest2
    | _ => none
  | _ => none

/-- Shared body of the removal pattern after the leading brackets. -/
def tsCoreBody (r1 : List Char) : Option (List Char) :=
  let d1 := r1.takeWhile isPyDigit
  let r2 := r1.dropWhile isPyDigit
  if d1.isEmpty then none else
  match r2 with
  | ':' :: r3 =>
    let d2 := r3.takeWhile isPyDigit
    let r4 := r3.dropWhile isPyDigit
    if d2.isEmpty then none else tsBracketTail r4
  | _ => none

/-- The bracket token and link, starting at `[` (leading `\s*` already
consumed).  Returns the suffix after the match. -/
def tsLinkCore : List Char → Option (List Char)
  | '[' :: r0 => tsCoreBody (if r0.head? = some '[' then r0.tail else r0)
  | _ => none

/-- Attempt of the full removal pattern at a position: the greedy `\\s*` run
must reach the `[` (shorter runs leave a whitespace character where `[` is
required, so no backtracking arises). -/
def tsLinkMatch (s : List Char) : Option (List Char) :=
  tsLinkCore (s.dropWhile isPySpace)

theorem length_dropWhile_le (p : Char → Bool) (l : List Char) :
    (l.dropWhile p).length ≤ l.length := by
  induction l with
  | nil => simp [List.dropWhile]
  | cons c cs ih =>
    by_cases h : p c
    · simp [List.dropWhile, h]; omega
    · simp [List.dropWhile, h]

theorem tsParen_length {r rest : List Char} (h : tsParen r = some rest) :
    rest.length < r.length := by
  unfold tsParen at h
  dsimp only at h
  split at h
  · exact absurd h (by simp)
  · have h1 : (r.dropWhile (fun c => c ≠ ')')).length ≤ r.length :=
      length_dropWhile_le _ r
    split at h
    case _ rest2 hr2 =>
      simp only [Option.some.injEq] at h
      subst h
      rw [hr2] at h1
      simp at h1
      omega
    case _ => exact absurd h (by simp)

theorem tsBracketTail_length {r rest : List Char} (h : tsBracketTail r = some rest) :
    rest.length < r.length := by
  unfold tsBracketTail at h
  split at h
  case _ rest1 =>
    split at h
    case _ rest2 =>
      split at h
      · have h1 := tsParen_length h
        have ht : rest2.tail.length ≤ rest2.length := by
          cases rest2 <;> simp
        simp only [List.length_cons]
        omega
      · exact absurd h (by simp)
    case _ rest2 =>
      have h1 := tsParen_length h
      simp only [List.length_cons]
      omega
    case _ => exact absurd h (by simp)
  case _ => exact absurd h (by simp)

theorem tsCoreBody_length {r1 rest : List Char} (h : tsCoreBody r1 = some rest) :
    rest.length < r1.length := by
  unfold tsCoreBody at h
  dsimp only at h
  have h2 : (r1.dropWhile isPyDigit).length ≤ r1.length := length_dropWhile_le _ r1
  split at h
  · exact absurd h (by simp)
  · split at h
    case _ r3 hr3 =>
      rw [hr3] at h2
      have h4 : (r3.dropWhile isPyDigit).length ≤ r3.length := length_dropWhile_le _ r3
      split at h
      · exact absurd h (by simp)
      · have h6 := tsBracketTail_length h
        simp at h2
        omega
    case _ => exact absurd h (by simp)

theorem tsLinkCore_length {s rest : List Char} (h : tsLinkCore s = some rest) :
    rest.length < s.length := by
  unfold tsLinkCore at h
  split at h
  case _ r0 =>
    have h1 := tsCoreBody_length h
    have hr1 : (if r0.head? = some '[' then r0.tail else r0).length ≤ r0.length := by
      split
      · cases r0 <;> simp
      · exact le_refl _
    simp only [List.length_cons]
    omega
  case _ => exact absurd h (by simp)

theorem tsLinkMatch_length {s rest : List Char} (h : tsLinkMatch s = some rest) :
    rest.length < s.length := by
  unfold tsLinkMatch at h
  have h1 := tsLinkCore_length h
  have h2 := length_dropWhile_le isPySpace s
  omega

/-- The global substitution `re.sub(r'\s*\[\[?\d+:\d+\]?\]\([^)]+\)', '', text)`:
scan left to right, on a match skip its span, otherwise emit the character.
The fuel argument only serves structural termination; by
`tsLinkMatch_length` every step shortens the text, so fuel equal to the
length is never exhausted. -/
def tsLinkSubGo : Nat → List Char → List Char
  | 0, s => s
  | _, [] => []
  | fuel + 1, s@(c :: rest) =>
    match tsLinkMatch s with
    | some r => tsLinkSubGo fuel r
    | none => c :: tsLinkSubGo fuel rest

def tsLinkSub (s : List Char) : List Char :=
  tsLinkSubGo s.length s

/-- The fuel argument is irrelevant as soon as it covers the length. -/
theorem tsLinkSubGo_congr :
    ∀ (f₁ : Nat) (s : List Char) (f₂ : Nat), s.length ≤ f₁ → s.length ≤ f₂ →
      tsLinkSubGo f₁ s = tsLinkSubGo f₂ s := by
  intro f₁
  induction f₁ with
  | zero =>
    intro s f₂ h₁ _
    have : s = [] := by
      cases s
      · rfl
      · simp at h₁
    subst this
    cases f₂ <;> rfl
  | succ f ih =>
    intro s f₂ h₁ h₂
    cases s with
    | nil => cases f₂ <;> rfl
    | cons c rest =>
      cases f₂ with
      | zero => simp at h₂
      | succ f' =>
        simp only [tsLinkSubGo]
        cases hm : tsLinkMatch (c :: rest) with
        | some r =>
          have hr := tsLinkMatch_length hm
          simp only []
          exact ih r f' (by simp at h₁ hr ⊢; omega) (by simp at h₂ hr ⊢; omega)
        | none =>
          simp only []
          rw [ih rest f' (by simp at h₁ ⊢; omega) (by simp at h₂ ⊢; omega)]

/-- Step equation: a match at the head skips its span. -/
theorem tsLinkSub_match {s r : List Char} (h : tsLinkMatch s = some r) :
    tsLinkSub s = tsLinkSub r := by
  cases s with
  | nil => simp [tsLinkMatch, tsLinkCore] at h
  | cons c rest =>
    have hr := tsLinkMatch_length h
    unfold tsLinkSub
    simp only [List.length_cons, tsLinkSubGo, h]
    exact tsLinkSubGo_congr _ r _ (by simp at hr ⊢; omega) (le_refl _)

/-- Step equation: no match at the head emits the character. -/
theorem tsLinkSub_nomatch {c : Char} {rest : List Char}
    (h : tsLinkMatch (c :: rest) = none) :
    tsLinkSub (c :: rest) = c :: tsLinkSub rest := by
  unfold tsLinkSub
  simp only [List.length_cons, tsLinkSubGo, h]

/-! ### Quote cleanup, `import_summaries.py` lines 63 to 65

`re.sub(r'\s*-\s*Speaker.*$', '', text)` and
`re.sub(r'\s*\[\d+:\d+\].*$', '', text)` on a single line (the input contains
no newline, so `.*$` runs to the end of the string): the substitution
truncates the text at the leftmost position where the prefix of the pattern
before `.*` matches.  Finally `text.strip('"\x27')` removes quotation
characters from both ends. -/

/-- Does `\s*-\s*Speaker` match at this position?  The greedy `\s*` runs are
forced: `-` and `S` are not whitespace. -/
def speakerHere (s : List Char) : Bool :=
  match s.dropWhile isPySpace with
  | '-' :: r => "Speaker".data.isPrefixOf (r.dropWhile isPySpace)
  | _ => false

/-- Truncate at the leftmost `\s*-\s*Speaker.*$` match. -/
def speakerSub : List Char → List Char
  | [] => []
  | c :: rest => if speakerHere (c :: rest) then [] else c :: speakerSub rest

/-- Does `\s*\[\d+:\d+\]` match at this position? -/
def quoteTsHere (s : List Char) : Bool :=
  match s.dropWhile isPySpace with
  | '[' :: r =>
    match r.dropWhile isPyDigit, (r.takeWhile isPyDigit).isEmpty with
    | ':' :: r3, false =>
      match r3.dropWhile isPyDigit, (r3.takeWhile isPyDigit).isEmpty with
      | ']' :: _, false => true
      | _, _ => false
    | _, _ => false
  | _ => false

/-- Truncate at the leftmost `\s*\[\d+:\d+\].*$` match. -/
def quoteTsSub : List Char → List Char
  | [] => []
  | c :: rest => if quoteTsHere (c :: rest) then [] else c :: quoteTsSub rest

/-- Python `text.strip('"\x27')`. -/
def isQuoteChar (c : Char) : Bool :=
  c = '"' || c = Char.ofNat 39

def stripQuoteChars (cs : List Char) : List Char :=
  ((cs.dropWhile isQuoteChar).reverse.dropWhile isQuoteChar).reverse

/-! ### Section bodies, `import_summaries.py` lines 18, 23, 42, 55, 71, 83

The four bulleted sections use
`re.search(r'#\s*(?:EMOJI\s*)?NAME[:\s]*\n+([\s\S]+?)(?=\n#|\Z)', content,
re.IGNORECASE)`.  The optional emoji is taken exactly when its characters are
present (skipping it leaves the emoji character where a keyword letter is
required).  `[:\s]*\n+` is modelled by the full backtracking cascade: the
class run length `k` is tried longest first over positions whose character is
a newline, then the `\n+` count `j` largest first; the lazy capture
`([\s\S]+?)` takes the shortest nonempty prefix whose following suffix is
empty (`\Z`) or starts with a heading (`\n#`). -/

/-- Case-insensitive literal match (`re.IGNORECASE`); `pat` is given in
lowercase. -/
def ciPrefix : List Char → List Char → Bool
  | [], _ => true
  | _ :: _, [] => false
  | p :: ps, c :: cs => c.toLower = p && ciPrefix ps cs

/-- Characters matched by `[:\s]`. -/
def isColonSpace (c : Char) : Bool :=
  c = ':' || isPySpace c

/-- The lookahead `(?=\n#|\Z)` seen from the suffix after the capture. -/
def isHeadingTerm : List Char → Bool
  | '\n' :: '#' :: _ => true
  | _ => false

/-- Lazy capture `([\s\S]+?)(?=\n#|\Z)`: shortest nonempty prefix whose
residue is empty or a heading start. -/
def lazyCapZ : List Char → Option (List Char)
  | [] => none
  | c :: rest =>
    if rest.isEmpty || isHeadingTerm rest then some [c]
    else (lazyCapZ rest).map (c :: ·)

/-- Backtracking cascade for `CLASS*\n+` followed by a capture attempt `cap`:
the class-run prefix length is tried longest first (only positions holding a
newline can satisfy `\n+`), then the number of consumed newlines largest
first. -/
def nlCascade (runP : Char → Bool) (cap : List Char → Option (List Char))
    (r : List Char) : Option (List Char) :=
  firstSome
    (fun k =>
      firstSome (fun j => cap (r.drop (k + j)))
        (((List.range ((r.drop k).takeWhile (fun c => c = '\n')).length).reverse).map (· + 1)))
    (((List.range (r.takeWhile runP).length).reverse).filter
      (fun k => (r.drop k).head? = some '\n'))

/-- Attempt of a bulleted-section pattern at a position: `#`, greedy `\s*`,
optional emoji decoration with trailing `\s*`, the case-insensitive keyword,
then the `[:\s]*\n+` cascade and the lazy capture. -/
def sectionMatchAt (deco kw : List Char) : List Char → Option (List Char)
  | '#' :: r0 =>
    let r1 := r0.dropWhile isPySpace
    let r2 := if deco.isPrefixOf r1 then (r1.drop deco.length).dropWhile isPySpace else r1
    if ciPrefix kw r2 then
      nlCascade isColonSpace lazyCapZ (r2.drop kw.length)
    else none
  | _ => none

/-- `re.search` over the document for a bulleted-section pattern. -/
def sectionSearch (deco kw : List Char) (cs : List Char) : Option (List Char) :=
  searchAll (sectionMatchAt deco kw) cs

/-! ### The TLDR block, `import_summaries.py` line 18

`re.search(r'(?:^|\n)(?:>?\s*\*?\*?SUMMARY\*?\*?|# SUMMARY)\s*\n+>?\s*(.+?)(?=\n\n|\n#)',
content, re.IGNORECASE | re.DOTALL)`.  Heading positions are the document
start and every position following a newline, in that order.  Branch one
(`>?\s*\*?\*?SUMMARY\*?\*?`) and branch two (`# SUMMARY`) cannot both match at
one position, and the optional `>`, the greedy `\s*` and the star pairs are
forced.  The tail `\s*\n+>?\s*(.+?)(?=\n\n|\n#)` keeps the full preference
cascade: here the lookahead has no `\Z` alternative, so a capture is only
produced when a blank line or a `\n#` follows, and the optional `>` and the
greedy `\s*` really do backtrack (a blank line can hide inside the
whitespace run). -/

/-- The lookahead `(?=\n\n|\n#)`. -/
def isBlankTerm : List Char → Bool
  | '\n' :: '\n' :: _ => true
  | '\n' :: '#' :: _ => true
  | _ => false

/-- Lazy capture `(.+?)(?=\n\n|\n#)` under `re.DOTALL`: shortest nonempty
prefix whose residue starts a blank line or a heading; no match at all when
no such residue exists. -/
def lazyCapBlank : List Char → Option (List Char)
  | [] => none
  | c :: rest =>
    if isBlankTerm rest then some [c]
    else (lazyCapBlank rest).map (c :: ·)

/-- `\s*(.+?)(?=\n\n|\n#)`: the whitespace-run prefix length is tried longest
first. -/
def tldrSpacesCap (bb : List Char) : Option (List Char) :=
  firstSome (fun s => lazyCapBlank (bb.drop s))
    ((List.range ((bb.takeWhile isPySpace).length + 1)).reverse)

/-- `>?\s*(.+?)(?=\n\n|\n#)`: the optional `>` is preferred, and given up if
the rest of the pattern fails. -/
def tldrTailCap (b : List Char) : Option (List Char) :=
  match b with
  | '>' :: r =>
    match tldrSpacesCap r with
    | some g => some g
    | none => tldrSpacesCap b
  | _ => tldrSpacesCap b

/-- Drop up to two leading `*` characters (`\*?\*?`). -/
def dropStars2 (cs : List Char) : List Char :=
  match cs with
  | '*' :: '*' :: r => r
  | '*' :: r => r
  | r => r

/-- Drop one leading `>` if present (`>?` before a mandatory continuation). -/
def dropGt (s : List Char) : List Char :=
  match s with
  | '>' :: r => r
  | r => r

/-- Branch one of the TLDR heading: `>?\s*\*?\*?SUMMARY\*?\*?` followed by the
shared tail. -/
def tldrBranchPlain (s : List Char) : Option (List Char) :=
  let r0 := dropGt s
  let r1 := dropStars2 (r0.dropWhile isPySpace)
  if ciPrefix "summary".data r1 then
    nlCascade isPySpace tldrTailCap (dropStars2 (r1.drop 7))
  else none

/-- Branch two of the TLDR heading: the literal `# SUMMARY` followed by the
shared tail. -/
def tldrBranchHash (s : List Char) : Option (List Char) :=
  if ciPrefix "# summary".data s then
    nlCascade isPySpace tldrTailCap (s.drop 9)
  else none

def tldrMatchAt (s : List Char) : Option (List Char) :=
  match tldrBranchPlain s with
  | some g => some g
  | none => tldrBranchHash s

/-- Heading positions after a newline, in document order. -/
def tldrAfterNl : List Char → Option (List Char)
  | [] => none
  | c :: rest =>
    if c = '\n' then
      match tldrMatchAt rest with
      | some g => some g
      | none => tldrAfterNl rest
    else tldrAfterNl rest

/-- The whole TLDR search: document start first (the `^` alternative), then
after each newline. -/
def tldrSearch (cs : List Char) : Option (List Char) :=
  match tldrMatchAt cs with
  | some g => some g
  | none => tldrAfterNl cs

/-! ### The TAKEAWAY line, `import_summaries.py` line 83

`re.search(r'#\s*(?:🚀\s*)?(?:ONE[- ]SENTENCE\s*)?TAKEAWAY[:\s]*\n+(.+?)(?=\n#|\n\n|\Z)',
content, re.IGNORECASE)`.  Without `re.DOTALL` the lazy capture cannot cross a
newline. -/

/-- Lazy capture `(.+?)(?=\n#|\n\n|\Z)` without `re.DOTALL`: shortest
nonempty prefix of non-newline characters whose residue is empty or a
blank-line or heading start. -/
def lazyCapLine : List Char → Option (List Char)
  | [] => none
  | c :: rest =>
    if c = '\n' then none
    else if rest.isEmpty || isBlankTerm rest then some [c]
    else (lazyCapLine rest).map (c :: ·)

/-- The optional `ONE[- ]SENTENCE\s*` decoration, case-insensitive. -/
def dropOneSentence (cs : List Char) : List Char :=
  if ciPrefix "one".data cs then
    match cs.drop 3 with
    | c :: r =>
      if (c = '-' || c = ' ') && ciPrefix "sentence".data r then
        (r.drop 8).dropWhile isPySpace
      else cs
    | [] => cs
  else cs

def takeawayMatchAt : List Char → Option (List Char)
  | '#' :: r0 =>
    let r1 := r0.dropWhile isPySpace
    let r2 := if ['🚀'].isPrefixOf r1 then (r1.drop 1).dropWhile isPySpace else r1
    let r3 := dropOneSentence r2
    if ciPrefix "takeaway".data r3 then
      nlCascade isColonSpace lazyCapLine (r3.drop 8)
    else none
  | _ => none

def takeawaySearch (cs : List Char) : Option (List Char) :=
  searchAll takeawayMatchAt cs

/-! ### `parse_markdown_summary`, `import_summaries.py` lines 13 to 87 -/

/-- One IDEAS item: `{"text": ..., "timestamp": ...}`. -/
structure Idea where
  text : String
  timestamp : Option Nat
deriving DecidableEq, Repr

/-- Python `'\n'.split` on a character list. -/
def splitOnNl : List Char → List (List Char)
  | [] => [[]]
  | c :: rest =>
    if c = '\n' then [] :: splitOnNl rest
    else
      match splitOnNl rest with
      | l :: ls => (c :: l) :: ls
      | [] => [[c]]

/-- The bullet markers recognized by `startswith(('-', '*', '•'))` and
`re.sub(r'^[-*•]\s*', '', line)`. -/
def isBulletMarker (c : Char) : Bool :=
  c = '-' || c = '*' || c = '•'

/-- Lines 30 to 38: timestamp extraction and cleanup on the text of one IDEAS
bullet (after the marker has been stripped). -/
def ideaOfText (text : List Char) : Idea :=
  match tsSearch text with
  | some (m, s) => ⟨String.mk (pyStrip (tsLinkSub text)), some (m * 60 + s)⟩
  | none => ⟨String.mk text, none⟩

/-- Lines 26 to 38: one line of the IDEAS block. -/
def ideaOfLine (line : List Char) : Option Idea :=
  match pyStrip line with
  | c :: rest =>
    if isBulletMarker c then some (ideaOfText (rest.dropWhile isPySpace))
    else none
  | [] => none

/-- Lines 45 to 51: one line of the INSIGHTS block. -/
def insightOfLine (line : List Char) : Option String :=
  match pyStrip line with
  | c :: rest =>
    if isBulletMarker c then
      let text := pyStrip (tsLinkSub (rest.dropWhile isPySpace))
      if text.isEmpty then none else some (String.mk text)
    else none
  | [] => none

/-- Lines 58 to 67: one line of the QUOTES block. -/
def quoteOfLine (line : List Char) : Option String :=
  match pyStrip line with
  | c :: rest =>
    if isBulletMarker c then
      let text := stripQuoteChars (quoteTsSub (speakerSub (rest.dropWhile isPySpace)))
      if text.isEmpty then none else some (String.mk text)
    else none
  | [] => none

/-- Lines 74 to 79: one line of the FACTS block. -/
def factOfLine (line : List Char) : Option String :=
  match pyStrip line with
  | c :: rest =>
    if isBulletMarker c then
      let text := pyStrip (rest.dropWhile isPySpace)
      if text.isEmpty then none else some (String.mk text)
    else none
  | [] => none

/-- `block.strip().split('\n')` over a section body. -/
def blockLines (body : List Char) : List (List Char) :=
  splitOnNl (pyStrip body)

def ideasOfLines (ls : List (List Char)) : List Idea :=
  ls.filterMap ideaOfLine

def insightsOfLines (ls : List (List Char)) : List String :=
  ls.filterMap insightOfLine

def quotesOfLines (ls : List (List Char)) : List String :=
  ls.filterMap quoteOfLine

def factsOfLines (ls : List (List Char)) : List String :=
  ls.filterMap factOfLine

/-- The variation selector attached to the QUOTES emoji in the source. -/
def vs16 : Char := Char.ofNat 0xFE0F

/-- Line 20: `.strip('>')` removes `>` characters from both ends (it is
applied after `.strip()`). -/
def stripGtBoth (cs : List Char) : List Char :=
  ((cs.dropWhile (fun c => c = '>')).reverse.dropWhile (fun c => c = '>')).reverse

/-- The result dictionary of `parse_markdown_summary`: `videoId` is always
present, each other key is present exactly when its section matched. -/
structure ParsedSummary where
  videoId : String
  tldr : Option String := none
  ideas : Option (List Idea) := none
  insights : Option (List String) := none
  quotes : Option (List String) := none
  facts : Option (List String) := none
  takeaway : Option String := none
deriving DecidableEq, Repr

/-- `parse_markdown_summary(content, video_id)`, lines 13 to 87. -/
def parse_markdown_summary (content video_id : String) : ParsedSummary :=
  let cs := content.data
  { videoId := video_id
    tldr := (tldrSearch cs).map
      (fun g => String.mk (stripGtBoth (pyStrip g)))
    ideas := (sectionSearch ['💡'] "ideas".data cs).map
      (fun body => (ideasOfLines (blockLines body)).take 15)
    insights := (sectionSearch ['🧠'] "insights".data cs).map
      (fun body => (insightsOfLines (blockLines body)).take 10)
    quotes := (sectionSearch ['🗣', vs16] "quotes".data cs).map
      (fun body => (quotesOfLines (blockLines body)).take 5)
    facts := (sectionSearch ['🧪'] "facts".data cs).map
      (fun body => (factsOfLines (blockLines body)).take 8)
    takeaway := (takeawaySearch cs).map (fun g => String.mk (pyStrip g)) }

/-! ### The visualization synthesizer, `generate_viz.py`

The functions below read a stored summary dictionary through `.get` with
defaults; `VizSummary` carries exactly the fields they access.  An ideas
entry may be a dictionary (`i['text']`) or a plain string, mirrored by
`IdeaItem`. -/

/-- One entry of `summary['ideas']` as `generate_viz.py` reads it:
`i['text'] if isinstance(i, dict) else i` (line 25, 68, 97). -/
inductive IdeaItem where
  | dict (text : String)
  | plain (s : String)
deriving DecidableEq, Repr

def ideaText : IdeaItem → String
  | .dict t => t
  | .plain s => s

/-- The fields of a stored summary dictionary accessed by `generate_viz.py`,
with the defaults of the `.get` calls (`[]`, `''`). -/
structure VizSummary where
  ideas : List IdeaItem := []
  insights : List String := []
  takeaway : String := ""
  tldr : String := ""
  facts : List String := []
deriving DecidableEq, Repr

structure MindBranch where
  label : String
  children : List String
deriving DecidableEq, Repr

structure Mindmap where
  root : String
  children : List MindBranch
deriving DecidableEq, Repr

/-- Line 58: `root = tldr[:30] + "..." if len(tldr) > 30 else tldr if tldr
else "视频总结"`. -/
def mindmapRoot (tldr : String) : String :=
  if tldr.length > 30 then String.mk (tldr.data.take 30) ++ "..."
  else if tldr ≠ "" then tldr else "视频总结"

/-- `generate_mindmap(summary)`, lines 17 to 60. -/
def generate_mindmap (s : VizSummary) : Mindmap :=
  let idea_texts := s.ideas.map ideaText
  let base : List MindBranch :=
    if idea_texts.length ≥ 3 then
      let third := idea_texts.length / 3
      [⟨"核心观点", (idea_texts.take third).take 3⟩,
       ⟨"关键论据", ((idea_texts.drop third).take third).take 3⟩,
       ⟨"延伸思考", (idea_texts.drop (2 * third)).take 3⟩]
    else []
  let withIns := base ++ (if s.insights.isEmpty then [] else [⟨"深度洞察", s.insights.take 3⟩])
  let withTake := withIns ++ (if s.takeaway = "" then [] else [⟨"核心结论", [s.takeaway]⟩])
  ⟨mindmapRoot s.tldr, withTake⟩

/-! Stat extraction, lines 62 to 92.  The six patterns are embedded as
deterministic matchers returning the captured group and the suffix after the
match; `re.findall` is the non-overlapping left-to-right scan. -/

structure Stat where
  value : String
  label : String
deriving DecidableEq, Repr

/-- The optional fraction `(?:\.\d+)?` after a digit run: taken exactly when
a dot followed by a digit is present (a dot without digits makes the rest of
every pattern fail on the dot anyway). -/
def decFrac (r : List Char) : List Char × List Char :=
  match r with
  | '.' :: r2 =>
    let d := r2.takeWhile isPyDigit
    if d.isEmpty then ([], r) else ('.' :: d, r2.dropWhile isPyDigit)
  | _ => ([], r)

/-- `(\d+(?:\.\d+)?)\s*UNIT` for a single unit character (`万`, `亿`, `%`,
`倍`). -/
def numUnitMatch (unit : Char) (s : List Char) : Option (List Char × List Char) :=
  let d1 := s.takeWhile isPyDigit
  if d1.isEmpty then none else
  let fr := decFrac (s.dropWhile isPyDigit)
  match fr.2.dropWhile isPySpace with
  | c :: rest => if c = unit then some (d1 ++ fr.1, rest) else none
  | [] => none

/-- `\$(\d+(?:\.\d+)?[KMB]?)`. -/
def dollarMatch (s : List Char) : Option (List Char × List Char) :=
  match s with
  | '$' :: r =>
    let d1 := r.takeWhile isPyDigit
    if d1.isEmpty then none else
    let fr := decFrac (r.dropWhile isPyDigit)
    match fr.2 with
    | c :: rest =>
      if c = 'K' || c = 'M' || c = 'B' then some (d1 ++ fr.1 ++ [c], rest)
      else some (d1 ++ fr.1, fr.2)
    | [] => some (d1 ++ fr.1, fr.2)
  | _ => none

/-- The optional range suffix `(?:-\d+)?` of the year pattern. -/
def decRange (r : List Char) : List Char × List Char :=
  match r with
  | '-' :: r2 =>
    let d := r2.takeWhile isPyDigit
    if d.isEmpty then ([], r) else ('-' :: d, r2.dropWhile isPyDigit)
  | _ => ([], r)

/-- `(\d+(?:-\d+)?)\s*年`. -/
def yearMatch (s : List Char) : Option (List Char × List Char) :=
  let d1 := s.takeWhile isPyDigit
  if d1.isEmpty then none else
  let fr := decRange (s.dropWhile isPyDigit)
  match fr.2.dropWhile isPySpace with
  | c :: rest => if c = '年' then some (d1 ++ fr.1, rest) else none
  | [] => none

/-- `re.findall`: scan left to right, non-overlapping; every pattern here
consumes at least one character on a match, so fuel equal to the length
suffices. -/
def findAllGo (m : List Char → Option (List Char × List Char)) :
    Nat → List Char → List (List Char)
  | 0, _ => []
  | _, [] => []
  | fuel + 1, s@(_ :: rest) =>
    match m s with
    | some (g, r) => g :: findAllGo m fuel r
    | none => findAllGo m fuel rest

def findAll (m : List Char → Option (List Char × List Char)) (s : List Char) :
    List (List Char) :=
  findAllGo m s.length s

/-- Lines 71 to 78, the fixed ordered pattern table with its suffixes. -/
def stat_patterns : List ((List Char → Option (List Char × List Char)) × String) :=
  [(numUnitMatch '万', "万"), (numUnitMatch '亿', "亿"), (numUnitMatch '%', "%"),
   (dollarMatch, "$"), (yearMatch, "年"), (numUnitMatch '倍', "倍")]

/-- Line 85: the value token, suffix appended except the currency prefix. -/
def statValue (suffix : String) (m : List Char) : String :=
  if suffix = "$" then "$" ++ String.mk m else String.mk m ++ suffix

/-- Line 88: `context = text[:20].strip()`. -/
def statLabel (text : String) : String :=
  String.mk (pyStrip (text.data.take 20))

/-- One accumulation step of the loop body, lines 86 to 90: append the stat
when its value is unseen and fewer than six stats have been collected. -/
def statPush (acc : List Stat × List String) (st : Stat) :
    List Stat × List String :=
  if !acc.2.contains st.value && acc.1.length < 6 then
    (acc.1 ++ [st], acc.2 ++ [st.value])
  else acc

/-- `extract_stats(summary)`, lines 62 to 92. -/
def extract_stats (s : VizSummary) : List Stat :=
  let all_text := s.facts ++ s.ideas.map ideaText
  ((all_text.foldl (fun acc text =>
      stat_patterns.foldl (fun acc pat =>
        (findAll pat.1 text.data).foldl
          (fun acc m => statPush acc ⟨statValue pat.2 m, statLabel text⟩) acc)
        acc)
    (([], []) : List Stat × List String)).1).take 6

/-- Line 99, the fixed comparison lexicon. -/
def comparison_keywords : List String :=
  ["vs", "VS", "对比", "相比", "优势", "劣势", "传统", "新型", "地面", "太空", "之前", "之后"]

/-- `detect_comparison(summary)`, lines 94 to 100; Python `kw in all_text` is
the contiguous-substring test. -/
def detect_comparison (s : VizSummary) : Bool :=
  let all_text := String.intercalate " " (s.ideas.map ideaText)
  comparison_keywords.any fun kw => decide (kw.data <:+: all_text.data)

/-- The `viz_data` dictionary: each key is present exactly when set. -/
structure VizData where
  mindmap : Option Mindmap := none
  stats : Option (List Stat) := none
deriving DecidableEq, Repr

/-- `generate_viz_data(summary)`, lines 102 to 122. -/
def generate_viz_data (s : VizSummary) : VizData × List String :=
  let mm := generate_mindmap s
  let vmm := if mm.children.isEmpty then none else some mm
  let st := extract_stats s
  let vst := if st.isEmpty then none else some st
  let tags := (if st.isEmpty then [] else ["stats"]) ++
    (if detect_comparison s then ["comparison"] else [])
  (⟨vmm, vst⟩, tags)

/-! ### JSON values and Python dictionaries

`validate_summary` and the two batch drivers manipulate parsed JSON
dynamically.  `JVal` models the JSON universe; a dictionary is an ordered
association list with unique keys (Python dictionaries preserve insertion
order, assignment to an existing key updates in place, a new key is
appended). -/

inductive JVal where
  | null
  | bool (b : Bool)
  | num (n : Int)
  | str (s : String)
  | list (xs : List JVal)
  | obj (fields : List (String × JVal))

abbrev Dict := List (String × JVal)

/-- Python `d[k]` read through `dict.get`: first binding wins. -/
def dget (d : Dict) (k : String) : Option JVal :=
  match d with
  | [] => none
  | p :: rest => if p.1 = k then some p.2 else dget rest k

/-- Python `k in d`. -/
def dmem (d : Dict) (k : String) : Bool :=
  match d with
  | [] => false
  | p :: rest => p.1 = k || dmem rest k

/-- Python `d[k] = v`: update in place when the key exists, else append. -/
def dset (d : Dict) (k : String) (v : JVal) : Dict :=
  if dmem d k then d.map (fun p => if p.1 = k then (k, v) else p)
  else d ++ [(k, v)]

/-- Python `d.update(other)`: assign every binding of `other` in order. -/
def dupdate (d other : Dict) : Dict :=
  other.foldl (fun acc p => dset acc p.1 p.2) d

/-- Python truthiness of a JSON value. -/
def truthy : JVal → Bool
  | .null => false
  | .bool b => b
  | .num n => n ≠ 0
  | .str s => s ≠ ""
  | .list xs => !xs.isEmpty
  | .obj f => !f.isEmpty

/-- Python `type(x).__name__` on JSON values. -/
def typeName : JVal → String
  | .null => "NoneType"
  | .bool _ => "bool"
  | .num _ => "int"
  | .str _ => "str"
  | .list _ => "list"
  | .obj _ => "dict"

/-! ### `validate_summary`, `record_video.py` lines 19 to 61 -/

/-- Line 20. -/
def REQUIRED_SUMMARY_FIELDS : List String := ["tldr", "ideas", "insights"]

/-- Line 37. -/
def metadata_fields : List String :=
  ["status", "video_id", "title", "channel", "duration", "views", "likes"]

/-- The `ValueError` reasons raised by `validate_summary`, distinguished by
kind as in the specification taxonomy. -/
inductive VErr where
  | typeMismatch (got : String)
  | missingFields (missing : List String)
  | invalidField (reason : String)
deriving DecidableEq, Repr

/-- Lines 32 to 41, the nested-summary repair pass: returns the possibly
flattened dictionary and whether the repair (and its warning) fired. -/
def repair_summary (d : Dict) : Dict × Bool :=
  match dget d "summary" with
  | some (.obj inner) =>
    if REQUIRED_SUMMARY_FIELDS.any (fun f => dmem inner f) then
      (dupdate (d.filter (fun p => metadata_fields.contains p.1)) inner, true)
    else (d, false)
  | _ => (d, false)

/-- Line 49: `isinstance(summary.get("tldr"), str) and summary["tldr"].strip()`. -/
def tldrFieldOk (v : Option JVal) : Bool :=
  match v with
  | some (.str t) => !(pyStrip t.data).isEmpty
  | _ => false

/-- Lines 52 and 55: `isinstance(..., list)`. -/
def isJList (v : Option JVal) : Bool :=
  match v with
  | some (.list _) => true
  | _ => false

/-- `validate_summary(summary, video_id)`, lines 22 to 61.  On success it
returns the validated dictionary together with the repair-warning flag;
failures carry the distinguishing reason.  (Python reports the payload of
`MissingFields` as a set; the list here keeps the required-field order.) -/
def validate_summary (summary : JVal) (video_id : String) :
    Except VErr (Dict × Bool) :=
  match summary with
  | .obj d0 =>
    let rep := repair_summary d0
    let d := rep.1
    let missing := REQUIRED_SUMMARY_FIELDS.filter (fun f => !dmem d f)
    if !missing.isEmpty then .error (.missingFields missing)
    else if !tldrFieldOk (dget d "tldr") then
      .error (.invalidField "tldr must be a non-empty string")
    else if !isJList (dget d "ideas") then
      .error (.invalidField "ideas must be a list")
    else if !isJList (dget d "insights") then
      .error (.invalidField "insights must be a list")
    else .ok (dset d "videoId" (.str video_id), rep.2)
  | v => .error (.typeMismatch (typeName v))

/-! ### The per-video update steps of the two batch drivers -/

/-- The timestamp field of a parsed idea as stored in `videos.json`. -/
def ideaToJVal (i : Idea) : JVal :=
  .obj [("text", .str i.text),
        ("timestamp", match i.timestamp with | some n => .num n | none => .null)]

/-- The dictionary produced by `parse_markdown_summary`, with keys in the
insertion order of `import_summaries.py`. -/
def psToJVal (p : ParsedSummary) : JVal :=
  .obj ([("videoId", .str p.videoId)] ++
    (match p.tldr with | some t => [("tldr", .str t)] | none => []) ++
    (match p.ideas with
     | some l => [("ideas", .list (l.map ideaToJVal))] | none => []) ++
    (match p.insights with
     | some l => [("insights", .list (l.map .str))] | none => []) ++
    (match p.quotes with
     | some l => [("quotes", .list (l.map .str))] | none => []) ++
    (match p.facts with
     | some l => [("facts", .list (l.map .str))] | none => []) ++
    (match p.takeaway with | some t => [("takeaway", .str t)] | none => []))

/-- `import_summaries.py` lines 114 to 122, the per-video update (file and
console I/O dropped): a video record is re-summarized only when it has no
`summary` key or a falsy one, and only when the parse found ideas or
insights. -/
def import_step (video : Dict) (content video_id : String) : Dict :=
  if (match dget video "summary" with
      | some v => !truthy v
      | none => true) then
    let p := parse_markdown_summary content video_id
    if !(p.ideas.getD []).isEmpty || !(p.insights.getD []).isEmpty then
      dset (dset video "summary" (psToJVal p))
        "insights_count" (.num (p.ideas.getD []).length)
    else video
  else video

/-- `summary.get(k)` on a stored summary value; the stored summaries are
dictionaries (Python would raise on any other shape). -/
def jget (j : JVal) (k : String) : Option JVal :=
  match j with
  | .obj d => dget d k
  | _ => none

/-- `summary[k] = v` on a stored summary value. -/
def jset (j : JVal) (k : String) (v : JVal) : JVal :=
  match j with
  | .obj d => .obj (dset d k v)
  | _ => j

/-- Reading a stored ideas entry the way `generate_viz.py` does
(`i['text'] if isinstance(i, dict) else i`); entries of the stored data are
dictionaries with a string `text` or plain strings. -/
def toIdeaItem : JVal → IdeaItem
  | .obj d =>
    .dict (match dget d "text" with | some (.str s) => s | _ => "")
  | .str s => .plain s
  | _ => .plain ""

def asStringList (v : Option JVal) : List String :=
  match v with
  | some (.list xs) => xs.map (fun x => match x with | .str s => s | _ => "")
  | _ => []

def asString (v : Option JVal) : String :=
  match v with
  | some (.str s) => s
  | _ => ""

/-- The `VizSummary` view of a stored summary dictionary, via the `.get`
calls with defaults in `generate_viz.py`. -/
def toVizSummary (j : JVal) : VizSummary :=
  { ideas := (match jget j "ideas" with
      | some (.list xs) => xs.map toIdeaItem
      | _ => [])
    insights := asStringList (jget j "insights")
    takeaway := asString (jget j "takeaway")
    tldr := asString (jget j "tldr")
    facts := asStringList (jget j "facts") }

def mindBranchToJVal (b : MindBranch) : JVal :=
  .obj [("label", .str b.label), ("children", .list (b.children.map .str))]

def mindmapToJVal (m : Mindmap) : JVal :=
  .obj [("root", .str m.root), ("children", .list (m.children.map mindBranchToJVal))]

def statToJVal (st : Stat) : JVal :=
  .obj [("value", .str st.value), ("label", .str st.label)]

/-- The `viz_data` dictionary with keys in insertion order of
`generate_viz_data`. -/
def vizDataToJVal (v : VizData) : JVal :=
  .obj ((match v.mindmap with
         | some m => [("mindmap", mindmapToJVal m)] | none => []) ++
        (match v.stats with
         | some st => [("stats", .list (st.map statToJVal))] | none => []))

/-- `generate_viz.py` lines 129 to 147, the per-video step (I/O dropped):
skip when `viz_data` is already truthy or no content is present, otherwise
attach `viz_data` and, when nonempty, `suggested_viz` to the stored summary. -/
def viz_step (video : Dict) : Dict :=
  let summary := (dget video "summary").getD (.obj [])
  if truthy ((jget summary "viz_data").getD .null) then video
  else if !truthy ((jget summary "ideas").getD .null) &&
      !truthy ((jget summary "insights").getD .null) then video
  else
    let r := generate_viz_data (toVizSummary summary)
    if r.1.mindmap.isSome || r.1.stats.isSome then
      let s1 := jset summary "viz_data" (vizDataToJVal r.1)
      let s2 := if !r.2.isEmpty then jset s1 "suggested_viz" (.list (r.2.map .str)) else s1
      dset video "summary" s2
    else video

/-! ### Dictionary lemmas -/

theorem dget_none_of_dmem_false {d : Dict} {k : String} (h : dmem d k = false) :
    dget d k = none := by
  induction d with
  | nil => rfl
  | cons p rest ih =>
    simp only [dmem, Bool.or_eq_false_iff] at h
    simp only [dget]
    rw [if_neg (by simpa using h.1)]
    exact ih h.2

theorem dmem_of_dget_some {d : Dict} {k : String} {v : JVal}
    (h : dget d k = some v) : dmem d k = true := by
  by_cases hm : dmem d k = true
  · exact hm
  · rw [dget_none_of_dmem_false (by simpa using hm)] at h
    cases h

theorem dget_ne_nil {d : Dict} {k : String} {v : JVal}
    (h : dget d k = some v) : d ≠ [] := by
  intro he
  subst he
  cases h

theorem dget_append (d₁ d₂ : Dict) (k : String) :
    dget (d₁ ++ d₂) k =
      (match dget d₁ k with
       | some v => some v
       | none => dget d₂ k) := by
  induction d₁ with
  | nil => simp [dget]
  | cons p rest ih =>
    simp only [List.cons_append, dget]
    by_cases h : p.1 = k
    · simp [h]
    · simp [h, ih]

theorem dget_cons (p : String × JVal) (rest : Dict) (k : String) :
    dget (p :: rest) k = if p.1 = k then some p.2 else dget rest k := rfl

theorem dget_mapset_ne (d : Dict) (k : String) (v : JVal) (k' : String)
    (h : k' ≠ k) :
    dget (d.map (fun p => if p.1 = k then (k, v) else p)) k' = dget d k' := by
  induction d with
  | nil => rfl
  | cons p rest ih =>
    simp only [List.map_cons]
    by_cases hp : p.1 = k
    · have h1 : ¬((k, v).1 = k') := fun hh => h hh.symm
      have h2 : ¬(p.1 = k') := fun hh => h (hp.symm.trans hh).symm
      rw [if_pos hp, dget_cons, dget_cons, if_neg h1, if_neg h2, ih]
    · rw [if_neg hp, dget_cons, dget_cons, ih]

theorem dget_mapset_self (d : Dict) (k : String) (v : JVal)
    (h : dmem d k = true) :
    dget (d.map (fun p => if p.1 = k then (k, v) else p)) k = some v := by
  induction d with
  | nil => cases h
  | cons p rest ih =>
    simp only [dmem, Bool.or_eq_true] at h
    simp only [List.map_cons]
    by_cases hp : p.1 = k
    · rw [if_pos hp, dget_cons, if_pos rfl]
    · rw [if_neg hp, dget_cons, if_neg hp]
      refine ih ?_
      rcases h with h | h
      · exact absurd (by simpa using h) hp
      · exact h

theorem dget_dset (d : Dict) (k : String) (v : JVal) (k' : String) :
    dget (dset d k v) k' = if k' = k then some v else dget d k' := by
  unfold dset
  by_cases hm : dmem d k
  · rw [if_pos hm]
    by_cases hk : k' = k
    · subst hk
      rw [if_pos rfl, dget_mapset_self d k' v hm]
    · rw [if_neg hk, dget_mapset_ne d k v k' hk]
  · rw [if_neg hm]
    rw [dget_append]
    by_cases hk : k' = k
    · subst hk
      rw [dget_none_of_dmem_false (by simpa using hm)]
      simp [dget_cons, dget]
    · cases hv : dget d k'
      · show dget [(k, v)] k' = _
        rw [dget_cons, if_neg (fun hh : k = k' => hk hh.symm), if_neg hk]
        rfl
      · rw [if_neg hk]

theorem dget_of_key_not_mem {other : Dict} {k : String}
    (h : ∀ p ∈ other, p.1 ≠ k) : dget other k = none := by
  induction other with
  | nil => rfl
  | cons p rest ih =>
    rw [dget, if_neg (h p (by simp))]
    exact ih (fun q hq => h q (by simp [hq]))

theorem dget_dupdate (d other : Dict) (k : String)
    (h : (other.map Prod.fst).Nodup) :
    dget (dupdate d other) k =
      (match dget other k with
       | some v => some v
       | none => dget d k) := by
  induction other generalizing d with
  | nil => simp [dupdate, dget]
  | cons p rest ih =>
    simp only [List.map_cons, List.nodup_cons] at h
    have step : dupdate d (p :: rest) = dupdate (dset d p.1 p.2) rest := by
      simp [dupdate]
    rw [step, ih _ h.2]
    by_cases hk : p.1 = k
    · subst hk
      have hrest : dget rest p.1 = none := by
        refine dget_of_key_not_mem (fun q hq => ?_)
        intro he
        exact h.1 (he ▸ List.mem_map_of_mem Prod.fst hq)
      simp [dget, hrest, dget_dset]
    · have : dget (dset d p.1 p.2) k = dget d k := by
        rw [dget_dset, if_neg (fun he => hk he.symm)]
      rw [this]
      cases hr : dget rest k <;> simp [dget, hk, hr]

theorem dget_filter_contains (d : Dict) (ms : List String) (k : String) :
    dget (d.filter (fun p => ms.contains p.1)) k =
      if ms.contains k then dget d k else none := by
  induction d with
  | nil => simp [dget]
  | cons p rest ih =>
    by_cases hp : ms.contains p.1 = true
    · rw [List.filter_cons_of_pos (by simpa using hp)]
      by_cases hk : p.1 = k
      · subst hk
        rw [dget_cons, if_pos rfl, if_pos hp, dget_cons, if_pos rfl]
      · rw [dget_cons, if_neg hk, ih]
        by_cases hc : ms.contains k = true
        · rw [if_pos hc, if_pos hc, dget_cons, if_neg hk]
        · rw [if_neg hc, if_neg hc]
    · rw [List.filter_cons_of_neg (by simpa using hp)]
      by_cases hk : p.1 = k
      · subst hk
        rw [ih, if_neg hp, if_neg hp]
      · rw [ih]
        by_cases hc : ms.contains k = true
        · rw [if_pos hc, if_pos hc, dget_cons, if_neg hk]
        · rw [if_neg hc, if_neg hc]

/-- C9: Re-running the pipeline on a document whose stored record already
carries a summary with non-empty `ideas` or `insights` leaves the record
unchanged in the import step, and a record whose summary already carries a
truthy `viz_data` is left unchanged by the synthesis step. -/
theorem c9_idempotent_skip (video : Dict) (content vid : String) (sd : Dict)
    (vz : JVal) :
    (dget video "summary" = some (.obj sd) →
      ((∃ l, dget sd "ideas" = some (.list l) ∧ l ≠ []) ∨
       (∃ l, dget sd "insights" = some (.list l) ∧ l ≠ [])) →
      import_step video content vid = video) ∧
    (dget video "summary" = some (.obj sd) →
      dget sd "viz_data" = some vz → truthy vz = true →
      viz_step video = video) := by
  constructor
  · intro hs hne
    have hsd : sd ≠ [] := by
      rcases hne with ⟨l, hl, _⟩ | ⟨l, hl, _⟩ <;> exact dget_ne_nil hl
    unfold import_step
    rw [hs]
    simp [truthy, hsd]
  · intro hs hvz htr
    unfold viz_step
    rw [hs]
    simp [jget, hvz, htr]

/-- C9 witness. -/
theorem c9_witness :
    import_step [("summary", .obj [("ideas", .list [.str "a"])])] "# IDEAS\n- b\n" "v" =
      [("summary", .obj [("ideas", .list [.str "a"])])] ∧
    viz_step [("summary", .obj [("viz_data", .obj [("stats", .list [])]),
      ("ideas", .list [.str "a"])])] =
      [("summary", .obj [("viz_data", .obj [("stats", .list [])]),
        ("ideas", .list [.str "a"])])] := by
  constructor
  · exact (c9_idempotent_skip _ "# IDEAS\n- b\n" "v" [("ideas", .list [.str "a"])]
      .null).1 rfl (Or.inl ⟨[.str "a"], rfl, by simp⟩)
  · exact (c9_idempotent_skip _ "" "" [("viz_data", .obj [("stats", .list [])]),
      ("ideas", .list [.str "a"])] (.obj [("stats", .list [])])).2 rfl rfl rfl

/-! ### Cap invariants (C2) -/

/-- The full IDEAS list before the cap is applied. -/
def ideasAll (content : String) : List Idea :=
  match sectionSearch ['💡'] "ideas".data content.data with
  | some body => ideasOfLines (blockLines body)
  | none => []

def insightsAll (content : String) : List String :=
  match sectionSearch ['🧠'] "insights".data content.data with
  | some body => insightsOfLines (blockLines body)
  | none => []

def quotesAll (content : String) : List String :=
  match sectionSearch ['🗣', vs16] "quotes".data content.data with
  | some body => quotesOfLines (blockLines body)
  | none => []

def factsAll (content : String) : List String :=
  match sectionSearch ['🧪'] "facts".data content.data with
  | some body => factsOfLines (blockLines body)
  | none => []

/-- C2: On every input document the normalized lists respect the hard caps
(ideas 15, insights 10, quotes 5, facts 8) and synthesized stats respect the
cap of 6; each capped list is exactly the first-N prefix of the uncapped
normalized list, in document order. -/
theorem c2_caps (content vid : String) (s : VizSummary) :
    ((parse_markdown_summary content vid).ideas.getD []).length ≤ 15 ∧
    ((parse_markdown_summary content vid).insights.getD []).length ≤ 10 ∧
    ((parse_markdown_summary content vid).quotes.getD []).length ≤ 5 ∧
    ((parse_markdown_summary content vid).facts.getD []).length ≤ 8 ∧
    (extract_stats s).length ≤ 6 ∧
    (parse_markdown_summary content vid).ideas.getD [] = (ideasAll content).take 15 ∧
    (parse_markdown_summary content vid).insights.getD [] = (insightsAll content).take 10 ∧
    (parse_markdown_summary content vid).quotes.getD [] = (quotesAll content).take 5 ∧
    (parse_markdown_summary content vid).facts.getD [] = (factsAll content).take 8 := by
  have hideas : (parse_markdown_summary content vid).ideas.getD [] =
      (ideasAll content).take 15 := by
    unfold parse_markdown_summary ideasAll
    cases h : sectionSearch ['💡'] "ideas".data content.data <;> simp [h]
  have hins : (parse_markdown_summary content vid).insights.getD [] =
      (insightsAll content).take 10 := by
    unfold parse_markdown_summary insightsAll
    cases h : sectionSearch ['🧠'] "insights".data content.data <;> simp [h]
  have hq : (parse_markdown_summary content vid).quotes.getD [] =
      (quotesAll content).take 5 := by
    unfold parse_markdown_summary quotesAll
    cases h : sectionSearch ['🗣', vs16] "quotes".data content.data <;> simp [h]
  have hf : (parse_markdown_summary content vid).facts.getD [] =
      (factsAll content).take 8 := by
    unfold parse_markdown_summary factsAll
    cases h : sectionSearch ['🧪'] "facts".data content.data <;> simp [h]
  refine ⟨?_, ?_, ?_, ?_, ?_, hideas, hins, hq, hf⟩
  · rw [hideas]; exact List.length_take_le 15 _
  · rw [hins]; exact List.length_take_le 10 _
  · rw [hq]; exact List.length_take_le 5 _
  · rw [hf]; exact List.length_take_le 8 _
  · unfold extract_stats
    exact List.length_take_le 6 _

/-! ### Mindmap threshold (C4) -/

/-- The concrete three-idea summary showing the claimed single-branch shape
is not what the code produces. -/
def c4Input : VizSummary :=
  { ideas := [.dict "a", .dict "b", .dict "c"] }

/-- C4 counterexample: with exactly three ideas (and no insights, takeaway),
the produced mindmap has three branches holding one idea each; the first
branch does not contain all three idea texts, contradicting the claimed
single "core viewpoints" branch with all three. -/
theorem c4_counterexample :
    (generate_viz_data c4Input).1.mindmap =
      some ⟨"视频总结", [⟨"核心观点", ["a"]⟩, ⟨"关键论据", ["b"]⟩, ⟨"延伸思考", ["c"]⟩]⟩ ∧
    ((generate_viz_data c4Input).1.mindmap.map
      (fun m => (m.children.filter (fun b => !b.children.isEmpty)).length)) = some 3 := by
  exact ⟨rfl, rfl⟩

/-- C4 amended: with exactly 2 ideas and no insights or takeaway no mindmap
is produced; with exactly 3 ideas and no insights or takeaway the mindmap has
exactly three branches, labelled 核心观点 (core viewpoints), 关键论据 (key
arguments) and 延伸思考 (further reflections), each containing exactly one of
the three idea texts, in order. -/
theorem c4_mindmap_threshold :
    (∀ s : VizSummary, s.ideas.length = 2 → s.insights = [] → s.takeaway = "" →
      (generate_viz_data s).1.mindmap = none) ∧
    (∀ (s : VizSummary) (x y z : IdeaItem), s.ideas = [x, y, z] →
      s.insights = [] → s.takeaway = "" →
      (generate_viz_data s).1.mindmap =
        some ⟨mindmapRoot s.tldr,
          [⟨"核心观点", [ideaText x]⟩, ⟨"关键论据", [ideaText y]⟩,
           ⟨"延伸思考", [ideaText z]⟩]⟩) := by
  constructor
  · intro s h2 hi ht
    unfold generate_viz_data generate_mindmap
    simp [h2, hi, ht]
  · intro s x y z h3 hi ht
    unfold generate_viz_data generate_mindmap
    simp [h3, hi, ht]

/-- C4 witness. -/
theorem c4_witness :
    (generate_viz_data ⟨[.plain "a", .plain "b"], [], "", "", []⟩).1.mindmap = none ∧
    (generate_viz_data ⟨[.plain "p", .plain "q", .plain "r"], [], "", "", []⟩).1.mindmap =
      some ⟨"视频总结", [⟨"核心观点", ["p"]⟩, ⟨"关键论据", ["q"]⟩, ⟨"延伸思考", ["r"]⟩]⟩ := by
  constructor
  · exact c4_mindmap_threshold.1 ⟨[.plain "a", .plain "b"], [], "", "", []⟩ rfl rfl rfl
  · rw [c4_mindmap_threshold.2 ⟨[.plain "p", .plain "q", .plain "r"], [], "", "", []⟩
      (.plain "p") (.plain "q") (.plain "r") rfl rfl rfl]
    rfl

/-! ### Suggested visualization tags (C8) -/

/-- C8: `"stats"` is suggested exactly when the extracted stats are nonempty,
`"comparison"` exactly when a lexicon keyword occurs as a substring of the
space-joined idea texts, no other tag exists (in particular mindmap presence
adds none), and the bilingual example from the specification produces the
comparison tag. -/
theorem c8_suggested_viz (s : VizSummary) :
    (("stats" ∈ (generate_viz_data s).2) ↔ extract_stats s ≠ []) ∧
    (("comparison" ∈ (generate_viz_data s).2) ↔
      ∃ kw ∈ comparison_keywords,
        kw.data <:+: (String.intercalate " " (s.ideas.map ideaText)).data) ∧
    (∀ t ∈ (generate_viz_data s).2, t = "stats" ∨ t = "comparison") ∧
    "comparison" ∈
      (generate_viz_data
        ⟨[.dict "传统方案成本更高", .dict "新型方案更高效"], [], "", "", []⟩).2 := by
  have hdet : detect_comparison s = true ↔
      ∃ kw ∈ comparison_keywords,
        kw.data <:+: (String.intercalate " " (s.ideas.map ideaText)).data := by
    unfold detect_comparison
    rw [List.any_eq_true]
    constructor
    · rintro ⟨kw, hkw, hp⟩
      exact ⟨kw, hkw, of_decide_eq_true hp⟩
    · rintro ⟨kw, hkw, hp⟩
      exact ⟨kw, hkw, decide_eq_true hp⟩
  refine ⟨?_, ?_, ?_, ?_⟩
  · unfold generate_viz_data
    by_cases hst : (extract_stats s).isEmpty
    · simp [hst, List.isEmpty_iff.mp hst]
    · have : extract_stats s ≠ [] := by
        intro he
        rw [he] at hst
        exact hst rfl
      simp [hst, this]
  · unfold generate_viz_data
    rw [← hdet]
    by_cases hc : detect_comparison s
    · simp [hc]
    · simp [hc]
  · intro t ht
    unfold generate_viz_data at ht
    simp only [] at ht
    rcases List.mem_append.mp ht with h | h
    · left
      by_cases hst : (extract_stats s).isEmpty <;> simp [hst] at h
      · exact h
    · right
      by_cases hc : detect_comparison s <;> simp [hc] at h
      · exact h
  · decide

/-- C8 witness. -/
theorem c8_witness :
    extract_stats (⟨[.plain "up 30%"], [], "", "", []⟩ : VizSummary) ≠ [] ∧
    ("stats" = "stats" ∨ "stats" = "comparison") := by
  constructor
  · exact (c8_suggested_viz ⟨[.plain "up 30%"], [], "", "", []⟩).1.mp (by decide)
  · exact (c8_suggested_viz ⟨[.plain "up 30%"], [], "", "", []⟩).2.2.1 "stats" (by decide)

/-! ### Empty bullet asymmetry (C10) -/

/-- C10: a bare bullet-marker line contributes an empty-text `Idea` to the
IDEAS list but is dropped by the INSIGHTS, QUOTES and FACTS normalizers. -/
theorem c10_empty_bullet (a b : List (List Char)) (l : List Char) (m : Char)
    (hm : isBulletMarker m = true) (hl : pyStrip l = [m]) :
    ideasOfLines (a ++ l :: b) = ideasOfLines a ++ ⟨"", none⟩ :: ideasOfLines b ∧
    insightsOfLines (a ++ l :: b) = insightsOfLines a ++ insightsOfLines b ∧
    quotesOfLines (a ++ l :: b) = quotesOfLines a ++ quotesOfLines b ∧
    factsOfLines (a ++ l :: b) = factsOfLines a ++ factsOfLines b := by
  have hidea : ideaOfLine l = some ⟨"", none⟩ := by
    unfold ideaOfLine
    rw [hl]
    simp [hm, ideaOfText, tsSearch, String.mk]
  have hins : insightOfLine l = none := by
    unfold insightOfLine
    rw [hl]
    simp [hm, tsLinkSub, tsLinkSubGo, pyStrip]
  have hq : quoteOfLine l = none := by
    unfold quoteOfLine
    rw [hl]
    simp [hm, speakerSub, quoteTsSub, stripQuoteChars]
  have hf : factOfLine l = none := by
    unfold factOfLine
    rw [hl]
    simp [hm, pyStrip]
  refine ⟨?_, ?_, ?_, ?_⟩
  · unfold ideasOfLines
    rw [List.filterMap_append]
    simp [hidea]
  · unfold insightsOfLines
    rw [List.filterMap_append]
    simp [hins]
  · unfold quotesOfLines
    rw [List.filterMap_append]
    simp [hq]
  · unfold factsOfLines
    rw [List.filterMap_append]
    simp [hf]

/-- C10 witness. -/
theorem c10_witness :
    ideasOfLines [['-', ' ', 'a'], [' ', '-', ' '], ['-', ' ', 'b']] =
      [⟨"a", none⟩, ⟨"", none⟩, ⟨"b", none⟩] ∧
    insightsOfLines [['-', ' ', 'a'], [' ', '-', ' '], ['-', ' ', 'b']] = ["a", "b"] := by
  have h := c10_empty_bullet [['-', ' ', 'a']] [['-', ' ', 'b']] [' ', '-', ' '] '-'
    (by decide) (by decide)
  constructor
  · rw [show ([['-', ' ', 'a'], [' ', '-', ' '], ['-', ' ', 'b']] :
      List (List Char)) = [['-', ' ', 'a']] ++ [' ', '-', ' '] :: [['-', ' ', 'b']] from rfl,
      h.1]
    rfl
  · rw [show ([['-', ' ', 'a'], [' ', '-', ' '], ['-', ' ', 'b']] :
      List (List Char)) = [['-', ' ', 'a']] ++ [' ', '-', ' '] :: [['-', ' ', 'b']] from rfl,
      h.2.1]
    rfl

/-! ### Validation characterization (C1) -/

theorem tldrFieldOk_iff (v : Option JVal) :
    tldrFieldOk v = true ↔ ∃ t, v = some (.str t) ∧ pyStrip t.data ≠ [] := by
  cases v with
  | none => simp [tldrFieldOk]
  | some x =>
    cases x with
    | str t => simp [tldrFieldOk, List.isEmpty_iff]
    | null => simp [tldrFieldOk]
    | bool b => simp [tldrFieldOk]
    | num n => simp [tldrFieldOk]
    | list xs => simp [tldrFieldOk]
    | obj f => simp [tldrFieldOk]

theorem isJList_iff (v : Option JVal) :
    isJList v = true ↔ ∃ xs, v = some (.list xs) := by
  cases v with
  | none => simp [isJList]
  | some x => cases x <;> simp [isJList]

theorem missing_nil_iff (d : Dict) :
    (REQUIRED_SUMMARY_FIELDS.filter (fun f => !dmem d f)).isEmpty = true ↔
      (dmem d "tldr" = true ∧ dmem d "ideas" = true ∧ dmem d "insights" = true) := by
  unfold REQUIRED_SUMMARY_FIELDS
  by_cases h1 : dmem d "tldr" = true <;>
    by_cases h2 : dmem d "ideas" = true <;>
      by_cases h3 : dmem d "insights" = true <;>
        simp [List.filter, h1, h2, h3]

/-- C1: `validate_summary` succeeds exactly when the post-repair candidate
is a dictionary whose `tldr` is a string that is nonempty after trimming and
whose `ideas` and `insights` are lists (a non-dictionary candidate fails with
the type-mismatch reason); on success the returned record is the post-repair
dictionary with `videoId` force-set to the given source id, overwriting any
caller-supplied value. -/
theorem c1_validate_characterization (cand : JVal) (vid : String) :
    (∀ d, cand = .obj d →
      (((validate_summary cand vid).isOk = true) ↔
        ((∃ t, dget (repair_summary d).1 "tldr" = some (.str t) ∧ pyStrip t.data ≠ []) ∧
         (∃ xs, dget (repair_summary d).1 "ideas" = some (.list xs)) ∧
         (∃ ys, dget (repair_summary d).1 "insights" = some (.list ys))))) ∧
    (∀ d out w, cand = .obj d → validate_summary cand vid = .ok (out, w) →
      out = dset (repair_summary d).1 "videoId" (.str vid) ∧
      dget out "videoId" = some (.str vid)) ∧
    ((∀ d, cand ≠ .obj d) →
      validate_summary cand vid = .error (.typeMismatch (typeName cand))) := by
  refine ⟨?_, ?_, ?_⟩
  · intro d hc
    subst hc
    show ((validate_summary (.obj d) vid).isOk = true) ↔ _
    unfold validate_summary
    simp only []
    constructor
    · intro hok
      by_cases hm : (REQUIRED_SUMMARY_FIELDS.filter
          (fun f => !dmem (repair_summary d).1 f)).isEmpty = true
      · rw [if_neg (by simp [hm])] at hok
        by_cases h1 : tldrFieldOk (dget (repair_summary d).1 "tldr") = true
        · rw [if_neg (by simp [h1])] at hok
          by_cases h2 : isJList (dget (repair_summary d).1 "ideas") = true
          · rw [if_neg (by simp [h2])] at hok
            by_cases h3 : isJList (dget (repair_summary d).1 "insights") = true
            · exact ⟨(tldrFieldOk_iff _).mp h1, (isJList_iff _).mp h2,
                (isJList_iff _).mp h3⟩
            · rw [if_pos (by simpa using h3)] at hok
              cases hok
          · rw [if_pos (by simpa using h2)] at hok
            cases hok
        · rw [if_pos (by simpa using h1)] at hok
          cases hok
      · rw [if_pos (by simpa using hm)] at hok
        cases hok
    · rintro ⟨⟨t, ht, htne⟩, ⟨xs, hxs⟩, ⟨ys, hys⟩⟩
      have h1 : tldrFieldOk (dget (repair_summary d).1 "tldr") = true :=
        (tldrFieldOk_iff _).mpr ⟨t, ht, htne⟩
      have h2 : isJList (dget (repair_summary d).1 "ideas") = true :=
        (isJList_iff _).mpr ⟨xs, hxs⟩
      have h3 : isJList (dget (repair_summary d).1 "insights") = true :=
        (isJList_iff _).mpr ⟨ys, hys⟩
      have hm : (REQUIRED_SUMMARY_FIELDS.filter
          (fun f => !dmem (repair_summary d).1 f)).isEmpty = true :=
        (missing_nil_iff _).mpr ⟨dmem_of_dget_some ht, dmem_of_dget_some hxs,
          dmem_of_dget_some hys⟩
      rw [if_neg (by simp [hm]), if_neg (by simp [h1]), if_neg (by simp [h2]),
        if_neg (by simp [h3])]
      rfl
  · intro d out w hc hok
    subst hc
    unfold validate_summary at hok
    simp only [] at hok
    split at hok
    · cases hok
    · split at hok
      · cases hok
      · split at hok
        · cases hok
        · split at hok
          · cases hok
          · simp only [Except.ok.injEq, Prod.mk.injEq] at hok
            refine ⟨hok.1.symm, ?_⟩
            rw [← hok.1, dget_dset, if_pos rfl]
  · intro hnot
    cases cand with
    | obj d => exact absurd rfl (hnot d)
    | null => rfl
    | bool b => rfl
    | num n => rfl
    | str s => rfl
    | list xs => rfl

/-- C1 witness. -/
theorem c1_witness :
    (validate_summary
      (.obj [("tldr", .str "x"), ("ideas", .list []), ("insights", .list []),
             ("videoId", .str "caller")]) "real").isOk = true ∧
    (validate_summary
      (.obj [("tldr", .str "x"), ("ideas", .list []), ("insights", .list []),
             ("videoId", .str "caller")]) "real" =
      .ok ([("tldr", .str "x"), ("ideas", .list []), ("insights", .list []),
            ("videoId", .str "real")], false)) ∧
    dget [("tldr", .str "x"), ("ideas", .list []), ("insights", .list []),
      ("videoId", .str "real")] "videoId" = some (.str "real") := by
  have hiff := (c1_validate_characterization
    (.obj [("tldr", .str "x"), ("ideas", .list []), ("insights", .list []),
           ("videoId", .str "caller")]) "real").1 _ rfl
  have hok : (validate_summary
      (.obj [("tldr", .str "x"), ("ideas", .list []), ("insights", .list []),
             ("videoId", .str "caller")]) "real").isOk = true := by
    refine hiff.mpr ⟨⟨"x", rfl, by decide⟩, ⟨[], rfl⟩, ⟨[], rfl⟩⟩
  have heq : validate_summary
      (.obj [("tldr", .str "x"), ("ideas", .list []), ("insights", .list []),
             ("videoId", .str "caller")]) "real" =
      .ok ([("tldr", .str "x"), ("ideas", .list []), ("insights", .list []),
            ("videoId", .str "real")], false) := rfl
  refine ⟨hok, heq, ?_⟩
  exact ((c1_validate_characterization _ "real").2.1 _ _ false rfl heq).2

/-! ### Repair transparency (C5) -/

/-- C5: the specification example flattens as claimed, and in general, when
the nested-duplication repair fires, every key of the repaired candidate
reads as the inner value when the inner object binds it and otherwise as the
outer value restricted to the fixed metadata allow-list; the repair warning
is emitted. -/
theorem c5_repair_transparency :
    (validate_summary
        (.obj [("status", .str "ok"),
               ("summary", .obj [("tldr", .str "x"), ("ideas", .list []),
                                 ("insights", .list [])])]) "vid" =
      .ok ([("status", .str "ok"), ("tldr", .str "x"), ("ideas", .list []),
            ("insights", .list []), ("videoId", .str "vid")], true)) ∧
    (∀ (d inner : Dict), dget d "summary" = some (.obj inner) →
      (REQUIRED_SUMMARY_FIELDS.any (fun f => dmem inner f)) = true →
      (inner.map Prod.fst).Nodup →
      (repair_summary d).2 = true ∧
      ∀ k, dget (repair_summary d).1 k =
        (match dget inner k with
         | some v => some v
         | none => if metadata_fields.contains k then dget d k else none)) := by
  constructor
  · rfl
  · intro d inner hin hany hnd
    have hrep : repair_summary d =
        (dupdate (d.filter (fun p => metadata_fields.contains p.1)) inner, true) := by
      unfold repair_summary
      rw [hin]
      simp [hany]
    refine ⟨by rw [hrep], ?_⟩
    intro k
    rw [hrep]
    show dget (dupdate (d.filter (fun p => metadata_fields.contains p.1)) inner) k = _
    rw [dget_dupdate _ _ _ hnd]
    cases dget inner k with
    | some v => rfl
    | none =>
      show dget (d.filter (fun p => metadata_fields.contains p.1)) k = _
      rw [dget_filter_contains]

/-- C5 witness. -/
theorem c5_witness :
    (repair_summary [("status", .str "ok"), ("other", .str "dropped"),
        ("summary", .obj [("tldr", .str "x"), ("status", .str "inner")])]).2 = true ∧
    dget (repair_summary [("status", .str "ok"), ("other", .str "dropped"),
        ("summary", .obj [("tldr", .str "x"), ("status", .str "inner")])]).1 "status" =
      some (.str "inner") ∧
    dget (repair_summary [("status", .str "ok"), ("other", .str "dropped"),
        ("summary", .obj [("tldr", .str "x"), ("status", .str "inner")])]).1 "other" =
      none := by
  have h := c5_repair_transparency.2
    [("status", .str "ok"), ("other", .str "dropped"),
     ("summary", .obj [("tldr", .str "x"), ("status", .str "inner")])]
    [("tldr", .str "x"), ("status", .str "inner")] rfl (by decide) (by decide)
  refine ⟨h.1, ?_, ?_⟩
  · rw [h.2 "status"]
    rfl
  · rw [h.2 "other"]
    rfl

/-! ### Stat deduplication, cap and scan order (C6) -/

/-- All stat candidates produced by one source string, in pattern-list order
and, within a pattern, in match order. -/
def perTextStats (text : String) : List Stat :=
  (stat_patterns.map (fun pat =>
    (findAll pat.1 text.data).map
      (fun m => (⟨statValue pat.2 m, statLabel text⟩ : Stat)))).flatten

/-- All stat candidates of a whole run in scan order: facts before idea
texts, source-string order within each, pattern-list order within one
string. -/
def scanStats (s : VizSummary) : List Stat :=
  ((s.facts ++ s.ideas.map ideaText).map perTextStats).flatten

/-- First-occurrence deduplication by exact value, accepting at most six
stats. -/
def firstSixDistinct : List Stat → List String → Nat → List Stat
  | [], _, _ => []
  | st :: rest, seen, k =>
    if st.value ∉ seen ∧ k < 6 then
      st :: firstSixDistinct rest (st.value :: seen) (k + 1)
    else firstSixDistinct rest seen k

theorem firstSixDistinct_congr (l : List Stat) :
    ∀ seen seen' k, (∀ v, v ∈ seen ↔ v ∈ seen') →
      firstSixDistinct l seen k = firstSixDistinct l seen' k := by
  induction l with
  | nil => intro seen seen' k _; rfl
  | cons st rest ih =>
    intro seen seen' k hequiv
    unfold firstSixDistinct
    by_cases hc : st.value ∉ seen' ∧ k < 6
    · rw [if_pos ⟨fun hmem => hc.1 ((hequiv _).mp hmem), hc.2⟩, if_pos hc]
      rw [ih (st.value :: seen) (st.value :: seen') (k + 1)
        (fun v => by simp only [List.mem_cons]; rw [hequiv v])]
    · have hnc : ¬(st.value ∉ seen ∧ k < 6) := by
        intro hx
        exact hc ⟨fun hmem => hx.1 ((hequiv _).mpr hmem), hx.2⟩
      rw [if_neg hnc, if_neg hc]
      exact ih seen seen' k hequiv

theorem statPush_foldl (l : List Stat) :
    ∀ (stats : List Stat) (seen : List String),
      (l.foldl statPush (stats, seen)).1 =
        stats ++ firstSixDistinct l seen stats.length := by
  induction l with
  | nil => intro stats seen; simp [firstSixDistinct]
  | cons st rest ih =>
    intro stats seen
    rw [List.foldl_cons]
    by_cases hc : st.value ∉ seen ∧ stats.length < 6
    · have hcf : seen.contains st.value = false := by
        cases hx : seen.contains st.value
        · rfl
        · exact absurd (List.elem_iff.mp hx) hc.1
      have hpush : statPush (stats, seen) st = (stats ++ [st], seen ++ [st.value]) := by
        unfold statPush
        rw [hcf]
        simp [hc.2]
      rw [hpush, ih]
      simp only [firstSixDistinct, if_pos hc]
      rw [firstSixDistinct_congr rest (seen ++ [st.value]) (st.value :: seen)
        (stats ++ [st]).length (fun v => by simp [or_comm])]
      simp [List.append_assoc]
    · have hb : (!seen.contains st.value && decide (stats.length < 6)) = false := by
        cases hx : seen.contains st.value
        · have hlen : ¬stats.length < 6 := by
            intro hl
            refine hc ⟨?_, hl⟩
            intro hm
            have hx2 : seen.contains st.value = true := List.elem_iff.mpr hm
            rw [hx2] at hx
            cases hx
          simp [hlen]
        · simp
      have hpush : statPush (stats, seen) st = (stats, seen) := by
        unfold statPush
        rw [hb]
        simp
      rw [hpush, ih]
      simp only [firstSixDistinct, if_neg hc]

theorem firstSixDistinct_length (l : List Stat) :
    ∀ seen k, (firstSixDistinct l seen k).length + k ≤ 6 ∨
      (firstSixDistinct l seen k) = [] := by
  induction l with
  | nil => intro seen k; right; rfl
  | cons st rest ih =>
    intro seen k
    unfold firstSixDistinct
    by_cases hc : st.value ∉ seen ∧ k < 6
    · rw [if_pos hc]
      rcases ih (st.value :: seen) (k + 1) with h | h
      · left; simp at h ⊢; omega
      · left; rw [h]; simp; omega
    · rw [if_neg hc]
      exact ih seen k

theorem firstSixDistinct_nodup (l : List Stat) :
    ∀ seen k, ((firstSixDistinct l seen k).map (fun st => st.value)).Nodup ∧
      ∀ v ∈ (firstSixDistinct l seen k).map (fun st => st.value), v ∉ seen := by
  induction l with
  | nil => intro seen k; exact ⟨List.nodup_nil, by simp [firstSixDistinct]⟩
  | cons st rest ih =>
    intro seen k
    unfold firstSixDistinct
    by_cases hc : st.value ∉ seen ∧ k < 6
    · rw [if_pos hc]
      obtain ⟨hnd, hdisj⟩ := ih (st.value :: seen) (k + 1)
      refine ⟨?_, ?_⟩
      · simp only [List.map_cons, List.nodup_cons]
        exact ⟨fun hmem => (hdisj _ hmem) (by simp), hnd⟩
      · intro v hv
        simp only [List.map_cons, List.mem_cons] at hv
        rcases hv with hv | hv
        · exact hv ▸ hc.1
        · intro hseen
          exact (hdisj v hv) (by simp [hseen])
    · rw [if_neg hc]
      exact ih seen k

/-- C6: `extract_stats` equals the first-occurrence value-deduplication,
capped at six, of the full candidate list taken in scan order (facts before
idea texts, source-string order within each, pattern-list order within one
string, suffix appended to the value except the `$` prefix); consequently
all emitted values are pairwise distinct and at most six stats appear. -/
theorem c6_stats_dedup (s : VizSummary) :
    extract_stats s = firstSixDistinct (scanStats s) [] 0 ∧
    ((extract_stats s).map (fun st => st.value)).Nodup ∧
    (extract_stats s).length ≤ 6 := by
  have foldl_fn_congr : ∀ {α β : Type} (l : List α) (f g : β → α → β) (b : β),
      (∀ acc a, f acc a = g acc a) → l.foldl f b = l.foldl g b := by
    intro α β l
    induction l with
    | nil => intro f g b _; rfl
    | cons a rest ih =>
      intro f g b h
      rw [List.foldl_cons, List.foldl_cons, h, ih f g _ h]
  have inner : ∀ (text : String) (acc : List Stat × List String),
      (perTextStats text).foldl statPush acc =
      stat_patterns.foldl (fun acc pat =>
        (findAll pat.1 text.data).foldl
          (fun acc m => statPush acc ⟨statValue pat.2 m, statLabel text⟩) acc) acc := by
    intro text acc
    unfold perTextStats
    rw [List.foldl_flatten, List.foldl_map]
    refine foldl_fn_congr _ _ _ _ ?_
    intro acc' pat
    rw [List.foldl_map]
  have houter : ((s.facts ++ s.ideas.map ideaText).foldl (fun acc text =>
      stat_patterns.foldl (fun acc pat =>
        (findAll pat.1 text.data).foldl
          (fun acc m => statPush acc ⟨statValue pat.2 m, statLabel text⟩) acc) acc)
      (([], []) : List Stat × List String)) =
      (scanStats s).foldl statPush (([], []) : List Stat × List String) := by
    unfold scanStats
    rw [List.foldl_flatten, List.foldl_map]
    refine foldl_fn_congr _ _ _ _ ?_
    intro acc' text
    rw [inner text acc']
  have heq : extract_stats s = firstSixDistinct (scanStats s) [] 0 := by
    unfold extract_stats
    dsimp only
    rw [houter, statPush_foldl]
    simp only [List.nil_append, List.length_nil]
    rcases firstSixDistinct_length (scanStats s) [] 0 with h | h
    · exact List.take_of_length_le (by omega)
    · rw [h]; rfl
  refine ⟨heq, ?_, ?_⟩
  · rw [heq]
    exact (firstSixDistinct_nodup _ [] 0).1
  · rw [heq]
    rcases firstSixDistinct_length (scanStats s) [] 0 with h | h
    · omega
    · rw [h]; exact Nat.le_refl 0 |>.trans (by omega)

/-! ### Timestamp extraction and removal (C3) -/

theorem takeWhile_append_all {p : Char → Bool} {xs : List Char} (y : Char)
    (ys : List Char) (hall : ∀ c ∈ xs, p c = true) (hy : p y = false) :
    (xs ++ y :: ys).takeWhile p = xs := by
  induction xs with
  | nil => simp [List.takeWhile, hy]
  | cons c cs ih =>
    rw [List.cons_append, List.takeWhile_cons, hall c (by simp), if_pos rfl,
      ih (fun c hc => hall c (by simp [hc]))]

theorem dropWhile_append_all {p : Char → Bool} {xs : List Char} (y : Char)
    (ys : List Char) (hall : ∀ c ∈ xs, p c = true) (hy : p y = false) :
    (xs ++ y :: ys).dropWhile p = y :: ys := by
  induction xs with
  | nil => simp [List.dropWhile, hy]
  | cons c cs ih =>
    rw [List.cons_append, List.dropWhile_cons_of_pos (hall c (by simp))]
    exact ih (fun c hc => hall c (by simp [hc]))

theorem dropWhile_append_allp {p : Char → Bool} {xs : List Char}
    (ys : List Char) (hall : ∀ c ∈ xs, p c = true) :
    (xs ++ ys).dropWhile p = ys.dropWhile p := by
  induction xs with
  | nil => rfl
  | cons c cs ih =>
    rw [List.cons_append, List.dropWhile_cons_of_pos (hall c (by simp))]
    exact ih (fun c hc => hall c (by simp [hc]))

theorem dropWhile_head_false {p : Char → Bool} {l : List Char} {c : Char}
    {cs : List Char} (h : l.dropWhile p = c :: cs) : p c = false ∧ c ∈ l := by
  induction l with
  | nil => cases h
  | cons a rest ih =>
    rw [List.dropWhile_cons] at h
    by_cases hp : p a = true
    · rw [if_pos hp] at h
      obtain ⟨h1, h2⟩ := ih h
      exact ⟨h1, by simp [h2]⟩
    · rw [if_neg hp] at h
      cases h
      exact ⟨by simpa using hp, by simp⟩

theorem tsLinkCore_nonbracket {c : Char} (xs : List Char) (h : ¬c = '[') :
    tsLinkCore (c :: xs) = none := by
  unfold tsLinkCore
  split
  · rename_i heq
    cases heq
    exact absurd rfl h
  · rfl

theorem tsMatchAt_nonbracket {c : Char} (xs : List Char) (h : ¬c = '[') :
    tsMatchAt (c :: xs) = none := by
  unfold tsMatchAt
  split
  · rename_i heq
    cases heq
    exact absurd rfl h
  · rfl

theorem tsMatchAt_nil : tsMatchAt [] = none := rfl

/-- A digit string used in a timestamp token. -/
def isDigits (d : List Char) : Prop :=
  d ≠ [] ∧ ∀ c ∈ d, isPyDigit c = true

/-- Evaluation of the shared timestamp body on digit groups. -/
theorem tsMatchBody_eval {d1 d2 : List Char} (rest : List Char)
    (h1 : isDigits d1) (h2 : isDigits d2) :
    tsMatchBody (d1 ++ ':' :: (d2 ++ ']' :: rest)) =
      some (charsToNat d1, charsToNat d2) := by
  obtain ⟨hne1, hall1⟩ := h1
  obtain ⟨hne2, hall2⟩ := h2
  unfold tsMatchBody
  dsimp only
  rw [takeWhile_append_all ':' _ hall1 (by decide),
    dropWhile_append_all ':' _ hall1 (by decide),
    if_neg (by simpa using hne1)]
  show (if (List.takeWhile isPyDigit (d2 ++ ']' :: rest)).isEmpty = true then none
    else
      match List.dropWhile isPyDigit (d2 ++ ']' :: rest) with
      | ']' :: _ =>
        some (charsToNat d1, charsToNat (List.takeWhile isPyDigit (d2 ++ ']' :: rest)))
      | _ => none) = some (charsToNat d1, charsToNat d2)
  rw [takeWhile_append_all ']' _ hall2 (by decide),
    dropWhile_append_all ']' _ hall2 (by decide),
    if_neg (by simpa using hne2)]
  rfl

/-- The timestamp pattern matches at a doubled-bracket token, capturing the
two digit groups. -/
theorem tsMatchAt_token {d1 d2 : List Char} (rest : List Char)
    (h1 : isDigits d1) (h2 : isDigits d2) :
    tsMatchAt ('[' :: '[' :: (d1 ++ ':' :: (d2 ++ ']' :: rest))) =
      some (charsToNat d1, charsToNat d2) := by
  have hstep : tsMatchAt ('[' :: '[' :: (d1 ++ ':' :: (d2 ++ ']' :: rest))) =
      tsMatchBody (d1 ++ ':' :: (d2 ++ ']' :: rest)) := rfl
  rw [hstep]
  exact tsMatchBody_eval rest ⟨h1.1, h1.2⟩ ⟨h2.1, h2.2⟩

/-- Scanning a prefix free of opening brackets finds nothing. -/
theorem tsSearch_append {pre : List Char} (X : List Char)
    (hp : '[' ∉ pre) : tsSearch (pre ++ X) = tsSearch X := by
  induction pre with
  | nil => rfl
  | cons c cs ih =>
    rw [List.cons_append]
    show (match tsMatchAt (c :: (cs ++ X)) with
      | some r => some r
      | none => tsSearch (cs ++ X)) = tsSearch X
    rw [tsMatchAt_nonbracket _ (fun he => hp (by simp [he]))]
    exact ih (fun hm => hp (by simp [hm]))

/-- The search on a token-headed suffix returns the token groups. -/
theorem tsSearch_token {d1 d2 : List Char} (rest : List Char)
    (h1 : isDigits d1) (h2 : isDigits d2) :
    tsSearch ('[' :: '[' :: (d1 ++ ':' :: (d2 ++ ']' :: rest))) =
      some (charsToNat d1, charsToNat d2) := by
  show (match tsMatchAt ('[' :: '[' :: (d1 ++ ':' :: (d2 ++ ']' :: rest))) with
    | some r => some r
    | none => tsSearch ('[' :: (d1 ++ ':' :: (d2 ++ ']' :: rest)))) = _
  rw [tsMatchAt_token rest h1 h2]

/-- Landing position of a whitespace run inside a chunk that contains a
non-space character: the scan stops at a character of the chunk. -/
theorem dropWhile_stops_inside {t : List Char} (rest : List Char)
    (hex : ∃ a ∈ t, isPySpace a = false) :
    ∃ hd hds, (t ++ rest).dropWhile isPySpace = hd :: (hds ++ rest) ∧
      isPySpace hd = false ∧ hd ∈ t := by
  induction t with
  | nil => simp at hex
  | cons a t2 ih =>
    by_cases ha : isPySpace a = true
    · have hex2 : ∃ b ∈ t2, isPySpace b = false := by
        obtain ⟨b, hb, hfb⟩ := hex
        rcases List.mem_cons.mp hb with he | hm
        · subst he
          rw [ha] at hfb
          cases hfb
        · exact ⟨b, hm, hfb⟩
      obtain ⟨hd, hds, heq, hf, hm⟩ := ih hex2
      refine ⟨hd, hds, ?_, hf, by simp [hm]⟩
      rw [List.cons_append, List.dropWhile_cons_of_pos ha, heq]
    · refine ⟨a, t2, ?_, by simpa using ha, by simp⟩
      rw [List.cons_append, List.dropWhile_cons_of_neg ha]

/-- Evaluation of the shared removal body on digit groups: everything up to
the first closing bracket matches, leaving the bracket tail. -/
theorem tsCoreBody_eval {d1 d2 : List Char} (tail : List Char)
    (h1 : isDigits d1) (h2 : isDigits d2) :
    tsCoreBody (d1 ++ ':' :: (d2 ++ ']' :: tail)) = tsBracketTail (']' :: tail) := by
  obtain ⟨hne1, hall1⟩ := h1
  obtain ⟨hne2, hall2⟩ := h2
  unfold tsCoreBody
  dsimp only
  rw [takeWhile_append_all ':' _ hall1 (by decide),
    dropWhile_append_all ':' _ hall1 (by decide),
    if_neg (by simpa using hne1)]
  show (if (List.takeWhile isPyDigit (d2 ++ ']' :: tail)).isEmpty = true then none
    else tsBracketTail (List.dropWhile isPyDigit (d2 ++ ']' :: tail))) =
      tsBracketTail (']' :: tail)
  rw [takeWhile_append_all ']' _ hall2 (by decide),
    dropWhile_append_all ']' _ hall2 (by decide),
    if_neg (by simpa using hne2)]

/-- The removal pattern fails on a bare doubled token (no link suffix). -/
theorem tsLinkCore_bare_two {d1 d2 : List Char} (post : List Char)
    (h1 : isDigits d1) (h2 : isDigits d2) (hpost : post.head? ≠ some '(') :
    tsLinkCore ('[' :: '[' :: (d1 ++ ':' :: (d2 ++ ']' :: ']' :: post))) = none := by
  have hstep : tsLinkCore ('[' :: '[' :: (d1 ++ ':' :: (d2 ++ ']' :: ']' :: post))) =
      tsCoreBody (d1 ++ ':' :: (d2 ++ ']' :: ']' :: post)) := rfl
  rw [hstep, tsCoreBody_eval (']' :: post) h1 h2]
  show (if post.head? = some '(' then tsParen post.tail else none) = none
  rw [if_neg hpost]

/-- The removal pattern fails at the inner bracket of a bare token. -/
theorem tsLinkCore_bare_one {d1 d2 : List Char} (post : List Char)
    (h1 : isDigits d1) (h2 : isDigits d2) (hpost : post.head? ≠ some '(') :
    tsLinkCore ('[' :: (d1 ++ ':' :: (d2 ++ ']' :: ']' :: post))) = none := by
  have hh : ((d1 ++ ':' :: (d2 ++ ']' :: ']' :: post)) : List Char).head? ≠
      some '[' := by
    cases d1 with
    | nil => exact absurd rfl h1.1
    | cons c cs =>
      have hcd : isPyDigit c = true := h1.2 c (by simp)
      simp only [List.cons_append, List.head?_cons]
      intro he
      rw [Option.some.injEq] at he
      rw [he] at hcd
      cases hcd
  have hstep : tsLinkCore ('[' :: (d1 ++ ':' :: (d2 ++ ']' :: ']' :: post))) =
      tsCoreBody (if ((d1 ++ ':' :: (d2 ++ ']' :: ']' :: post)) : List Char).head? =
          some '[' then (d1 ++ ':' :: (d2 ++ ']' :: ']' :: post)).tail
        else d1 ++ ':' :: (d2 ++ ']' :: ']' :: post)) := rfl
  rw [hstep, if_neg hh, tsCoreBody_eval (']' :: post) h1 h2]
  show (if post.head? = some '(' then tsParen post.tail else none) = none
  rw [if_neg hpost]

/-- The removal pattern succeeds on a token followed by a parenthesized link,
consuming through the closing parenthesis. -/
theorem tsLinkCore_link {d1 d2 lnk : List Char} (post : List Char)
    (h1 : isDigits d1) (h2 : isDigits d2) (hlnk : lnk ≠ [])
    (hnp : ∀ c ∈ lnk, c ≠ ')') :
    tsLinkCore ('[' :: '[' ::
      (d1 ++ ':' :: (d2 ++ ']' :: ']' :: '(' :: (lnk ++ ')' :: post)))) = some post := by
  have hstep : tsLinkCore ('[' :: '[' ::
      (d1 ++ ':' :: (d2 ++ ']' :: ']' :: '(' :: (lnk ++ ')' :: post)))) =
      tsCoreBody (d1 ++ ':' :: (d2 ++ ']' :: ']' :: '(' :: (lnk ++ ')' :: post))) := rfl
  rw [hstep, tsCoreBody_eval (']' :: '(' :: (lnk ++ ')' :: post)) h1 h2]
  have hbt : tsBracketTail (']' :: ']' :: '(' :: (lnk ++ ')' :: post)) =
      tsParen (lnk ++ ')' :: post) := rfl
  rw [hbt]
  unfold tsParen
  dsimp only
  rw [takeWhile_append_all ')' _ (fun c hc => decide_eq_true (hnp c hc)) (by decide),
    dropWhile_append_all ')' _ (fun c hc => decide_eq_true (hnp c hc)) (by decide),
    if_neg (by simpa using hlnk)]
  rfl

/-- The full removal match fails everywhere in a bracket-free prefix whose
residue fails. -/
theorem tsLinkMatch_append_none {pre : List Char} (B : List Char)
    (hp : '[' ∉ pre) (hB : tsLinkMatch B = none) :
    tsLinkMatch (pre ++ B) = none := by
  induction pre with
  | nil => simpa using hB
  | cons c cs ih =>
    rw [List.cons_append]
    unfold tsLinkMatch
    rw [List.dropWhile_cons]
    by_cases hsp : isPySpace c = true
    · rw [if_pos hsp]
      exact ih (fun hm => hp (by simp [hm]))
    · rw [if_neg hsp]
      exact tsLinkCore_nonbracket _ (fun he => hp (by simp [he]))

/-- The substitution emits a bracket-free prefix verbatim when the residue
has no match. -/
theorem tsLinkSub_append_emit {pre : List Char} (B : List Char)
    (hp : '[' ∉ pre) (hB : tsLinkMatch B = none) :
    tsLinkSub (pre ++ B) = pre ++ tsLinkSub B := by
  induction pre with
  | nil => rfl
  | cons c cs ih =>
    have hp2 : '[' ∉ cs := fun hm => hp (List.mem_cons_of_mem c hm)
    have hm : tsLinkMatch (c :: (cs ++ B)) = none :=
      tsLinkMatch_append_none B hp hB
    rw [List.cons_append, tsLinkSub_nomatch hm, ih hp2]
    rfl

/-- The substitution emits verbatim any chunk of non-space non-bracket
characters, whatever follows. -/
theorem tsLinkSub_chunk_emit {xs : List Char} (rest : List Char)
    (hx : ∀ c ∈ xs, isPySpace c = false ∧ c ≠ '[') :
    tsLinkSub (xs ++ rest) = xs ++ tsLinkSub rest := by
  induction xs with
  | nil => rfl
  | cons c cs ih =>
    have hc := hx c (by simp)
    have hm : tsLinkMatch (c :: (cs ++ rest)) = none := by
      unfold tsLinkMatch
      rw [List.dropWhile_cons, if_neg (by simp [hc.1])]
      exact tsLinkCore_nonbracket _ hc.2
    rw [List.cons_append, tsLinkSub_nomatch hm, ih (fun a ha => hx a (by simp [ha]))]
    rfl

/-- The substitution emits verbatim a chunk that ends in a non-space
character and contains no opening bracket, whatever follows.  This is the
part of the idea text before the whitespace that precedes a removed
token. -/
theorem tsLinkSub_solid_emit {xs : List Char} (rest : List Char)
    (hb : '[' ∉ xs)
    (hlast : ∀ c, xs.getLast? = some c → isPySpace c = false) :
    tsLinkSub (xs ++ rest) = xs ++ tsLinkSub rest := by
  induction xs with
  | nil => rfl
  | cons y ys ih =>
    have hne : (y :: ys : List Char) ≠ [] := by simp
    have hex : ∃ a ∈ (y :: ys : List Char), isPySpace a = false := by
      refine ⟨(y :: ys).getLast hne, List.getLast_mem hne, ?_⟩
      exact hlast _ (List.getLast?_eq_getLast _ hne)
    have hm : tsLinkMatch (y :: (ys ++ rest)) = none := by
      unfold tsLinkMatch
      obtain ⟨hd, hds, heq, hf, hmem⟩ := dropWhile_stops_inside rest hex
      rw [List.cons_append] at heq
      rw [heq]
      exact tsLinkCore_nonbracket _ (fun he => hb (he ▸ hmem))
    rw [List.cons_append, tsLinkSub_nomatch hm]
    cases hys : ys with
    | nil => rfl
    | cons z zs =>
      rw [← hys]
      have hlast2 : ∀ c, ys.getLast? = some c → isPySpace c = false := by
        intro c hc
        refine hlast c ?_
        rw [hys] at hc ⊢
        rw [List.getLast?_cons_cons]
        exact hc
      rw [ih (fun hm2 => hb (List.mem_cons_of_mem y hm2)) hlast2]
      rfl

/-- Trailing-whitespace suffix of a chunk, the part swallowed by the leading
`\s*` of the removal pattern. -/
def wsSuffixOf (cs : List Char) : List Char :=
  (cs.reverse.takeWhile isPySpace).reverse

theorem rstrip_append_wsSuffix (l : List Char) : rstripWs l ++ wsSuffixOf l = l := by
  unfold rstripWs wsSuffixOf
  rw [← List.reverse_append, List.takeWhile_append_dropWhile, List.reverse_reverse]

theorem wsSuffix_all_space (l : List Char) :
    ∀ c ∈ wsSuffixOf l, isPySpace c = true := by
  intro c hc
  unfold wsSuffixOf at hc
  rw [List.mem_reverse] at hc
  exact List.mem_takeWhile_imp hc

theorem rstrip_subset {l : List Char} {c : Char} (h : c ∈ rstripWs l) : c ∈ l := by
  unfold rstripWs at h
  rw [List.mem_reverse] at h
  have := (List.dropWhile_suffix (l := l.reverse) isPySpace).subset h
  rwa [List.mem_reverse] at this

theorem rstrip_last_nonspace (l : List Char) :
    ∀ c, (rstripWs l).getLast? = some c → isPySpace c = false := by
  intro c hc
  unfold rstripWs at hc
  rw [List.getLast?_reverse] at hc
  cases hd : l.reverse.dropWhile isPySpace with
  | nil => rw [hd] at hc; cases hc
  | cons x xs =>
    rw [hd] at hc
    rw [List.head?_cons, Option.some.injEq] at hc
    subst hc
    exact (dropWhile_head_false hd).1

theorem digit_not_space {c : Char} (h : isPyDigit c = true) : isPySpace c = false := by
  cases hsp : isPySpace c
  · rfl
  · unfold isPySpace at hsp
    simp only [Bool.or_eq_true, decide_eq_true_eq] at hsp
    rcases hsp with ((((h1 | h1) | h1) | h1) | h1) | h1 <;>
      (subst h1; cases h)

theorem digit_not_bracket {c : Char} (h : isPyDigit c = true) : c ≠ '[' := by
  intro he
  subst he
  cases h

/-- C3 counterexample: a bullet whose timestamp token is not followed by a
parenthesized link keeps the token in the stored idea text, while the
parsed `timestampSeconds` is still 725 for `[[12:05]]`. -/
theorem c3_counterexample :
    (parse_markdown_summary "# IDEAS\n- point [[12:05]] more\n" "v").ideas =
      some [⟨"point [[12:05]] more", some 725⟩] ∧
    "[[12:05]]".data <:+: "point [[12:05]] more".data := by
  exact ⟨rfl, by decide⟩

/-- C3 amended: for an IDEAS bullet text containing a doubled-bracket inline
timestamp token, the parsed timestamp is minutes times sixty plus seconds (so
`[[12:05]]` yields 725); the token together with its trailing link syntax is
removed from the cleaned text only when a parenthesized link follows the
token directly, a bare token staying in the text; and a text with no
timestamp yields a null timestamp. -/
theorem c3_timestamp (pre d1 d2 : List Char) (hp : '[' ∉ pre)
    (h1 : isDigits d1) (h2 : isDigits d2) :
    (∀ rest, tsSearch (pre ++ '[' :: '[' :: (d1 ++ ':' :: (d2 ++ ']' :: rest))) =
      some (charsToNat d1, charsToNat d2)) ∧
    (∀ lnk post, lnk ≠ [] → (∀ c ∈ lnk, c ≠ ')') →
      ideaOfText (pre ++ '[' :: '[' ::
          (d1 ++ ':' :: (d2 ++ ']' :: ']' :: '(' :: (lnk ++ ')' :: post)))) =
        ⟨String.mk (pyStrip (rstripWs pre ++ tsLinkSub post)),
         some (charsToNat d1 * 60 + charsToNat d2)⟩) ∧
    (∀ post, post.head? ≠ some '(' →
      ideaOfText (pre ++ '[' :: '[' :: (d1 ++ ':' :: (d2 ++ ']' :: ']' :: post))) =
        ⟨String.mk (pyStrip (pre ++ '[' :: '[' ::
            (d1 ++ ':' :: (d2 ++ ']' :: ']' :: tsLinkSub post)))),
         some (charsToNat d1 * 60 + charsToNat d2)⟩) ∧
    (∀ text, tsSearch text = none → ideaOfText text = ⟨String.mk text, none⟩) := by
  refine ⟨?_, ?_, ?_, ?_⟩
  · intro rest
    rw [tsSearch_append _ hp, tsSearch_token rest h1 h2]
  · intro lnk post hlnk hnp
    unfold ideaOfText
    rw [tsSearch_append _ hp,
      tsSearch_token (']' :: '(' :: (lnk ++ ')' :: post)) h1 h2]
    show (⟨String.mk (pyStrip (tsLinkSub (pre ++ '[' :: '[' ::
        (d1 ++ ':' :: (d2 ++ ']' :: ']' :: '(' :: (lnk ++ ')' :: post)))))),
      some (charsToNat d1 * 60 + charsToNat d2)⟩ : Idea) = _
    have hmatch : tsLinkMatch (wsSuffixOf pre ++ '[' :: '[' ::
        (d1 ++ ':' :: (d2 ++ ']' :: ']' :: '(' :: (lnk ++ ')' :: post)))) = some post := by
      unfold tsLinkMatch
      rw [dropWhile_append_allp _ (wsSuffix_all_space pre),
        List.dropWhile_cons_of_neg (by decide)]
      exact tsLinkCore_link post h1 h2 hlnk hnp
    have hsub : tsLinkSub (pre ++ '[' :: '[' ::
        (d1 ++ ':' :: (d2 ++ ']' :: ']' :: '(' :: (lnk ++ ')' :: post)))) =
        rstripWs pre ++ tsLinkSub post := by
      conv_lhs => rw [← rstrip_append_wsSuffix pre]
      rw [List.append_assoc,
        tsLinkSub_solid_emit _ (fun hm => hp (rstrip_subset hm))
          (rstrip_last_nonspace pre),
        tsLinkSub_match hmatch]
    rw [hsub]
  · intro post hpost
    unfold ideaOfText
    rw [tsSearch_append _ hp, tsSearch_token (']' :: post) h1 h2]
    show (⟨String.mk (pyStrip (tsLinkSub (pre ++ '[' :: '[' ::
        (d1 ++ ':' :: (d2 ++ ']' :: ']' :: post))))),
      some (charsToNat d1 * 60 + charsToNat d2)⟩ : Idea) = _
    have hB : tsLinkMatch ('[' :: '[' ::
        (d1 ++ ':' :: (d2 ++ ']' :: ']' :: post))) = none := by
      unfold tsLinkMatch
      rw [List.dropWhile_cons_of_neg (by decide)]
      exact tsLinkCore_bare_two post h1 h2 hpost
    have hB1 : tsLinkMatch ('[' ::
        (d1 ++ ':' :: (d2 ++ ']' :: ']' :: post))) = none := by
      unfold tsLinkMatch
      rw [List.dropWhile_cons_of_neg (by decide)]
      exact tsLinkCore_bare_one post h1 h2 hpost
    have hchunk : ∀ c ∈ d1 ++ ':' :: (d2 ++ [']', ']']),
        isPySpace c = false ∧ c ≠ '[' := by
      intro c hc
      rcases List.mem_append.mp hc with hc | hc
      · exact ⟨digit_not_space (h1.2 c hc), digit_not_bracket (h1.2 c hc)⟩
      · rcases List.mem_cons.mp hc with he | hc
        · subst he
          exact ⟨by decide, by decide⟩
        · rcases List.mem_append.mp hc with hc | hc
          · exact ⟨digit_not_space (h2.2 c hc), digit_not_bracket (h2.2 c hc)⟩
          · rcases List.mem_cons.mp hc with he | hc
            · subst he
              exact ⟨by decide, by decide⟩
            · rcases List.mem_cons.mp hc with he | hc
              · subst he
                exact ⟨by decide, by decide⟩
              · cases hc
    have hassoc : d1 ++ ':' :: (d2 ++ ']' :: ']' :: post) =
        (d1 ++ ':' :: (d2 ++ [']', ']'])) ++ post := by
      simp [List.append_assoc]
    have hsub : tsLinkSub (pre ++ '[' :: '[' ::
        (d1 ++ ':' :: (d2 ++ ']' :: ']' :: post))) =
        pre ++ '[' :: '[' ::
          (d1 ++ ':' :: (d2 ++ ']' :: ']' :: tsLinkSub post)) := by
      rw [tsLinkSub_append_emit _ hp hB, tsLinkSub_nomatch hB, tsLinkSub_nomatch hB1,
        hassoc, tsLinkSub_chunk_emit post hchunk]
      have hassoc2 : (d1 ++ ':' :: (d2 ++ [']', ']'])) ++ tsLinkSub post =
          d1 ++ ':' :: (d2 ++ ']' :: ']' :: tsLinkSub post) := by
        simp [List.append_assoc]
      rw [hassoc2]
    rw [hsub]
  · intro text hnone
    unfold ideaOfText
    rw [hnone]

/-- C3 witness. -/
theorem c3_witness :
    ideaOfText ("point ".data ++ '[' :: '[' ::
        (['1', '2'] ++ ':' :: (['0', '5'] ++ ']' :: ']' :: '(' ::
          ("yt".data ++ ')' :: [])))) =
      ⟨String.mk (pyStrip (rstripWs "point ".data ++ tsLinkSub [])),
       some (charsToNat ['1', '2'] * 60 + charsToNat ['0', '5'])⟩ ∧
    ideaOfText "point [[12:05]](yt)".data = ⟨"point", some 725⟩ := by
  constructor
  · exact (c3_timestamp "point ".data ['1', '2'] ['0', '5'] (by decide)
      ⟨by decide, by decide⟩ ⟨by decide, by decide⟩).2.1 "yt".data [] (by decide)
      (by decide)
  · rfl

/-! ### The TLDR capture family (C7) -/

/-- A character other than a newline never starts the lookahead. -/
theorem isBlankTerm_cons_ne {c : Char} (X : List Char) (h : ¬(c = '\n')) :
    isBlankTerm (c :: X) = false := by
  unfold isBlankTerm
  split
  · rename_i heq
    rw [List.cons.injEq] at heq
    exact absurd heq.1 h
  · rename_i heq
    rw [List.cons.injEq] at heq
    exact absurd heq.1 h
  · rfl

/-- On a body holding no internal blank-line or heading boundary, followed by
a terminator satisfying the lookahead, the lazy capture takes exactly the
body.  The boundary-freeness ranges over the nonempty proper suffixes of the
body, which are the residues the lazy scan inspects. -/
theorem lazyCapBlank_term (btl : List Char) : ∀ (b0 : Char) (tm : List Char),
    isBlankTerm tm = true →
    (∀ q ∈ btl.tails, ¬(q = []) → isBlankTerm (q ++ tm) = false) →
    lazyCapBlank ((b0 :: btl) ++ tm) = some (b0 :: btl) := by
  induction btl with
  | nil =>
    intro b0 tm htm _
    show (if isBlankTerm tm then some [b0]
          else (lazyCapBlank tm).map (b0 :: ·)) = some [b0]
    rw [if_pos htm]
  | cons d tl ih =>
    intro b0 tm htm hno
    show (if isBlankTerm ((d :: tl) ++ tm) then some [b0]
          else (lazyCapBlank ((d :: tl) ++ tm)).map (b0 :: ·)) = some (b0 :: d :: tl)
    have hfalse : isBlankTerm ((d :: tl) ++ tm) = false :=
      hno (d :: tl) (by rw [List.tails_cons]; exact List.mem_cons_self _ _)
        (List.cons_ne_nil d tl)
    rw [if_neg (by rw [hfalse]; exact Bool.false_ne_true)]
    rw [ih d tm htm (fun q hq hne =>
      hno q (by rw [List.tails_cons]; exact List.mem_cons_of_mem _ hq) hne)]
    rfl

/-- A newline-free document has no position satisfying the lookahead, so the
lazy capture fails outright. -/
theorem lazyCapBlank_none (X : List Char) (hnl : '\n' ∉ X) :
    lazyCapBlank X = none := by
  induction X with
  | nil => rfl
  | cons c rest ih =>
    show (if isBlankTerm rest then some [c]
          else (lazyCapBlank rest).map (c :: ·)) = none
    have hterm : isBlankTerm rest = false := by
      cases rest with
      | nil => rfl
      | cons d tl =>
        refine isBlankTerm_cons_ne tl (fun he => hnl ?_)
        rw [he]
        exact List.mem_cons_of_mem _ (List.mem_cons_self _ _)
    rw [if_neg (by rw [hterm]; exact Bool.false_ne_true)]
    rw [ih (fun hm => hnl (List.mem_cons_of_mem _ hm))]
    rfl

/-- A newline-free suffix holds no further heading positions. -/
theorem tldrAfterNl_no_nl (l : List Char) (hnl : '\n' ∉ l) :
    tldrAfterNl l = none := by
  induction l with
  | nil => rfl
  | cons c rest ih =>
    show (if c = '\n' then
        match tldrMatchAt rest with
        | some g => some g
        | none => tldrAfterNl rest
      else tldrAfterNl rest) = none
    have hc : ¬(c = '\n') := by
      intro he
      rw [he] at hnl
      exact hnl (List.mem_cons_self _ _)
    rw [if_neg hc]
    exact ih (fun hm => hnl (List.mem_cons_of_mem _ hm))

/-- When the block does not start with `>`, the optional `>` is skipped. -/
theorem tldrTailCap_ne (b : Char) (Y : List Char) (hgt : ¬(b = '>')) :
    tldrTailCap (b :: Y) = tldrSpacesCap (b :: Y) := by
  unfold tldrTailCap
  split
  · rename_i r heq
    rw [List.cons.injEq] at heq
    exact absurd heq.1 hgt
  · rfl

/-- The first `some` of a single candidate. -/
theorem firstSome_single {α β : Type} (f : α → Option β) (a : α) :
    firstSome f [a] = f a := by
  show (match f a with | some b => some b | none => firstSome f []) = f a
  cases f a <;> rfl

/-- A first candidate that already succeeds settles the preference scan. -/
theorem firstSome_cons_some {α β : Type} (f : α → Option β) (a : α)
    (as : List α) (b : β) (h : f a = some b) :
    firstSome f (a :: as) = some b := by
  show (match f a with | some r => some r | none => firstSome f as) = some b
  rw [h]

/-- With no leading whitespace the greedy `\s*` run is empty and the tail
capture is the plain lazy capture. -/
theorem tldrSpacesCap_nosp (X : List Char) (hns : X.takeWhile isPySpace = []) :
    tldrSpacesCap X = lazyCapBlank X := by
  unfold tldrSpacesCap
  rw [hns]
  rw [show (List.range (([] : List Char).length + 1)).reverse = [0] from rfl]
  rw [firstSome_single]
  rw [List.drop_zero]

/-- A block whose head is not whitespace keeps that head out of every
whitespace run. -/
theorem head_not_space (c : Char) (rest : List Char)
    (hns : (c :: rest).takeWhile isPySpace = []) : isPySpace c = false := by
  cases hsp : isPySpace c with
  | false => rfl
  | true =>
    rw [List.takeWhile_cons_of_pos hsp] at hns
    exact absurd hns (List.cons_ne_nil _ _)

/-- The `\s*\n+` cascade over a single newline followed by a non-whitespace
character: the only consistent split hands the remainder to the tail. -/
theorem nlCascade_one (cap : List Char → Option (List Char)) (X : List Char)
    (hns : X.takeWhile isPySpace = []) :
    nlCascade isPySpace cap ('\n' :: X) = cap X := by
  have hXnl : X.takeWhile (fun c => c = '\n') = [] := by
    cases X with
    | nil => rfl
    | cons c rest =>
      have hsp := head_not_space c rest hns
      have hc : ¬(c = '\n') := by
        intro he
        rw [he] at hsp
        exact absurd hsp (by decide)
      exact List.takeWhile_cons_of_neg (by simpa using hc)
  have htw : ('\n' :: X).takeWhile isPySpace = '\n' :: X.takeWhile isPySpace :=
    List.takeWhile_cons_of_pos (by decide)
  have htw2 : ('\n' :: X).takeWhile (fun c => c = '\n')
      = '\n' :: X.takeWhile (fun c => c = '\n') :=
    List.takeWhile_cons_of_pos (by decide)
  unfold nlCascade
  rw [htw, hns]
  rw [show (((List.range (('\n' :: ([] : List Char)).length)).reverse).filter
      (fun k => (('\n' :: X).drop k).head? = some '\n')) = [0] from rfl]
  simp only [firstSome_single]
  rw [List.drop_zero, htw2, hXnl]
  rw [show (((List.range (('\n' :: ([] : List Char)).length)).reverse).map (· + 1)) = [1] from rfl]
  simp only [firstSome_single]
  rfl

/-- The optional `>` of the heading branch is skipped when absent. -/
theorem dropGt_ne (b : Char) (Y : List Char) (hgt : ¬(b = '>')) :
    dropGt (b :: Y) = b :: Y := by
  unfold dropGt
  split
  · rename_i r heq
    rw [List.cons.injEq] at heq
    exact absurd heq.1 hgt
  · rfl

/-- The optional stars of the heading branch are skipped when absent. -/
theorem dropStars2_ne (b : Char) (Y : List Char) (hst : ¬(b = '*')) :
    dropStars2 (b :: Y) = b :: Y := by
  unfold dropStars2
  split
  · rename_i r heq
    rw [List.cons.injEq] at heq
    exact absurd heq.1 hst
  · rename_i r heq
    rw [List.cons.injEq] at heq
    exact absurd heq.1 hst
  · rfl

/-- Branch one of the TLDR heading fails on an undecorated non-SUMMARY line. -/
theorem tldrBranchPlain_none (b : Char) (Y : List Char) (hgt : ¬(b = '>'))
    (hsp : isPySpace b = false) (hst : ¬(b = '*'))
    (hcip : ciPrefix "summary".data (b :: Y) = false) :
    tldrBranchPlain (b :: Y) = none := by
  unfold tldrBranchPlain
  dsimp only
  rw [dropGt_ne b Y hgt]
  rw [List.dropWhile_cons_of_neg (by simp [hsp])]
  rw [dropStars2_ne b Y hst]
  rw [if_neg (by simp [hcip])]

/-- Branch two of the TLDR heading fails without the literal `# SUMMARY`. -/
theorem tldrBranchHash_none (s : List Char)
    (hcip : ciPrefix "# summary".data s = false) :
    tldrBranchHash s = none := by
  unfold tldrBranchHash
  rw [if_neg (by simp [hcip])]

/-- No TLDR heading matches at a position rejecting both branches. -/
theorem tldrMatchAt_none (b : Char) (Y : List Char) (hgt : ¬(b = '>'))
    (hsp : isPySpace b = false) (hst : ¬(b = '*'))
    (hcipA : ciPrefix "summary".data (b :: Y) = false)
    (hcipB : ciPrefix "# summary".data (b :: Y) = false) :
    tldrMatchAt (b :: Y) = none := by
  unfold tldrMatchAt
  rw [tldrBranchPlain_none b Y hgt hsp hst hcipA, tldrBranchHash_none _ hcipB]

/-- C7, counterexample.  Two parts of the claim fail on concrete inputs.  In
`# SUMMARY` followed by the single line `hello` the section body would run to
the end of the document, yet no tldr is produced: the lookahead `(?=\n\n|\n#)`
of line 18 has no end-of-document alternative.  And in a document whose
SUMMARY block is `>>>` before a blank line, the captured `>>` strips to the
empty string, which is nevertheless stored: an empty result does not make the
field absent. -/
theorem c7_counterexample :
    (parse_markdown_summary "# SUMMARY\nhello" "v").tldr = none ∧
    (parse_markdown_summary "# SUMMARY\n>>>\n\nx" "v").tldr = some "" :=
  ⟨rfl, rfl⟩

/-- C7, amended.  Let `tm` be any terminator satisfying the lookahead of
line 18 (it opens a blank line `\n\n` or a heading line `\n#`), and let the
body `b0 :: btl` be any text — possibly spanning several lines — whose first
character is not whitespace and which holds no internal terminator boundary.
Then: a quoted block (`>` and a whitespace run before the body) stores as
tldr the body trimmed of whitespace and of `>` characters on both ends — the
quote marker and the run are consumed by the pattern itself, not stripped
from the captured text; a plain body not opening with `>` stores the same;
and when no terminator follows (here: a single-line body that does not open
with `>` or `*` and is not itself SUMMARY-like), no tldr is produced at all —
the lookahead has no end-of-document alternative.  A possibly-empty stored
result is covered: `stripGtBoth (pyStrip body)` may be empty. -/
theorem c7_tldr_amended (b0 : Char) (btl ws tm : List Char) (vid : String)
    (hsp : isPySpace b0 = false) (htm : isBlankTerm tm = true)
    (hno : ∀ q ∈ btl.tails, ¬(q = []) → isBlankTerm (q ++ tm) = false)
    (hws : ∀ c ∈ ws, isPySpace c = true) :
    (parse_markdown_summary
        (String.mk ("# SUMMARY\n".data ++ ('>' :: (ws ++ ((b0 :: btl) ++ tm))))) vid).tldr
      = some (String.mk (stripGtBoth (pyStrip (b0 :: btl)))) ∧
    (¬(b0 = '>') →
      (parse_markdown_summary
          (String.mk ("# SUMMARY\n".data ++ ((b0 :: btl) ++ tm))) vid).tldr
        = some (String.mk (stripGtBoth (pyStrip (b0 :: btl))))) ∧
    (¬(b0 = '>') → ¬(b0 = '*') → '\n' ∉ b0 :: btl →
      ciPrefix "summary".data (b0 :: btl) = false →
      ciPrefix "# summary".data (b0 :: btl) = false →
      (parse_markdown_summary (String.mk ("# SUMMARY\n".data ++ (b0 :: btl))) vid).tldr
        = none) := by
  have hbody : lazyCapBlank ((b0 :: btl) ++ tm) = some (b0 :: btl) :=
    lazyCapBlank_term btl b0 tm htm hno
  refine ⟨?_, fun hgt => ?_, fun hgt hst hnl hcipA hcipB => ?_⟩
  · have htwq : (ws ++ ((b0 :: btl) ++ tm)).takeWhile isPySpace = ws := by
      rw [List.cons_append]
      exact takeWhile_append_all b0 (btl ++ tm) hws hsp
    have hsp2 : tldrSpacesCap (ws ++ ((b0 :: btl) ++ tm)) = some (b0 :: btl) := by
      unfold tldrSpacesCap
      rw [htwq]
      rw [show (List.range (ws.length + 1)).reverse
          = ws.length :: (List.range ws.length).reverse from by
        rw [List.range_succ, List.reverse_append]
        rfl]
      refine firstSome_cons_some _ _ _ _ ?_
      show lazyCapBlank ((ws ++ ((b0 :: btl) ++ tm)).drop ws.length) = some (b0 :: btl)
      rw [List.drop_left]
      exact hbody
    have hcapQ : tldrTailCap ('>' :: (ws ++ ((b0 :: btl) ++ tm))) = some (b0 :: btl) := by
      have h0 : tldrTailCap ('>' :: (ws ++ ((b0 :: btl) ++ tm)))
          = (match tldrSpacesCap (ws ++ ((b0 :: btl) ++ tm)) with
             | some g => some g
             | none => tldrSpacesCap ('>' :: (ws ++ ((b0 :: btl) ++ tm)))) := rfl
      rw [h0, hsp2]
    have hcasQ : nlCascade isPySpace tldrTailCap
        ('\n' :: ('>' :: (ws ++ ((b0 :: btl) ++ tm)))) = some (b0 :: btl) := by
      rw [nlCascade_one _ ('>' :: (ws ++ ((b0 :: btl) ++ tm)))
        (List.takeWhile_cons_of_neg (by decide)), hcapQ]
    have hplain : tldrBranchPlain
        ("# SUMMARY\n".data ++ ('>' :: (ws ++ ((b0 :: btl) ++ tm)))) = none := rfl
    have hhash : tldrBranchHash
        ("# SUMMARY\n".data ++ ('>' :: (ws ++ ((b0 :: btl) ++ tm))))
        = nlCascade isPySpace tldrTailCap
          ('\n' :: ('>' :: (ws ++ ((b0 :: btl) ++ tm)))) := rfl
    have hsearch : tldrSearch
        ("# SUMMARY\n".data ++ ('>' :: (ws ++ ((b0 :: btl) ++ tm)))) = some (b0 :: btl) := by
      unfold tldrSearch tldrMatchAt
      rw [hplain, hhash, hcasQ]
    have hfield : (parse_markdown_summary
        (String.mk ("# SUMMARY\n".data ++ ('>' :: (ws ++ ((b0 :: btl) ++ tm))))) vid).tldr
        = (tldrSearch ("# SUMMARY\n".data ++ ('>' :: (ws ++ ((b0 :: btl) ++ tm))))).map
          (fun g => String.mk (stripGtBoth (pyStrip g))) := rfl
    rw [hfield, hsearch]
    rfl
  · have hcapA : tldrTailCap ((b0 :: btl) ++ tm) = some (b0 :: btl) := by
      rw [List.cons_append, tldrTailCap_ne _ _ hgt,
        tldrSpacesCap_nosp _ (List.takeWhile_cons_of_neg (by simp [hsp])),
        ← List.cons_append, hbody]
    have hcasA : nlCascade isPySpace tldrTailCap ('\n' :: ((b0 :: btl) ++ tm))
        = some (b0 :: btl) := by
      rw [nlCascade_one _ ((b0 :: btl) ++ tm)
        (by rw [List.cons_append]; exact List.takeWhile_cons_of_neg (by simp [hsp])), hcapA]
    have hplain : tldrBranchPlain ("# SUMMARY\n".data ++ ((b0 :: btl) ++ tm)) = none := rfl
    have hhash : tldrBranchHash ("# SUMMARY\n".data ++ ((b0 :: btl) ++ tm))
        = nlCascade isPySpace tldrTailCap ('\n' :: ((b0 :: btl) ++ tm)) := rfl
    have hsearch : tldrSearch ("# SUMMARY\n".data ++ ((b0 :: btl) ++ tm))
        = some (b0 :: btl) := by
      unfold tldrSearch tldrMatchAt
      rw [hplain, hhash, hcasA]
    have hfield : (parse_markdown_summary
        (String.mk ("# SUMMARY\n".data ++ ((b0 :: btl) ++ tm))) vid).tldr
        = (tldrSearch ("# SUMMARY\n".data ++ ((b0 :: btl) ++ tm))).map
          (fun g => String.mk (stripGtBoth (pyStrip g))) := rfl
    rw [hfield, hsearch]
    rfl
  · have hcapB : tldrTailCap (b0 :: btl) = none := by
      rw [tldrTailCap_ne _ _ hgt,
        tldrSpacesCap_nosp _ (List.takeWhile_cons_of_neg (by simp [hsp])),
        lazyCapBlank_none _ hnl]
    have hcasB : nlCascade isPySpace tldrTailCap ('\n' :: (b0 :: btl)) = none := by
      rw [nlCascade_one _ (b0 :: btl) (List.takeWhile_cons_of_neg (by simp [hsp])), hcapB]
    have hmatB : tldrMatchAt ("# SUMMARY\n".data ++ (b0 :: btl)) = none := by
      have hplain : tldrBranchPlain ("# SUMMARY\n".data ++ (b0 :: btl)) = none := rfl
      have hhash : tldrBranchHash ("# SUMMARY\n".data ++ (b0 :: btl))
          = nlCascade isPySpace tldrTailCap ('\n' :: (b0 :: btl)) := rfl
      unfold tldrMatchAt
      rw [hplain, hhash, hcasB]
    have hafterB : tldrAfterNl ("# SUMMARY\n".data ++ (b0 :: btl))
        = (match tldrMatchAt (b0 :: btl) with
           | some g => some g
           | none => tldrAfterNl (b0 :: btl)) := rfl
    have hsearchB : tldrSearch ("# SUMMARY\n".data ++ (b0 :: btl)) = none := by
      unfold tldrSearch
      rw [hmatB, hafterB, tldrMatchAt_none b0 btl hgt hsp hst hcipA hcipB,
        tldrAfterNl_no_nl _ hnl]
    have hfieldB : (parse_markdown_summary
        (String.mk ("# SUMMARY\n".data ++ (b0 :: btl))) vid).tldr
        = (tldrSearch ("# SUMMARY\n".data ++ (b0 :: btl))).map
          (fun g => String.mk (stripGtBoth (pyStrip g))) := rfl
    rw [hfieldB, hsearchB]
    rfl

/-- C7 witness: the quoted block and the plain body before a heading line
both store `hello`; with nothing after the body line the field is absent. -/
theorem c7_witness :
    (parse_markdown_summary
        (String.mk ("# SUMMARY\n".data ++
          ('>' :: ([' '] ++ (('h' :: "ello".data) ++ '\n' :: '#' :: " next".data))))) "v").tldr
      = some (String.mk (stripGtBoth (pyStrip ('h' :: "ello".data)))) ∧
    (parse_markdown_summary
        (String.mk ("# SUMMARY\n".data ++
          (('h' :: "ello".data) ++ '\n' :: '#' :: " next".data))) "v").tldr
      = some (String.mk (stripGtBoth (pyStrip ('h' :: "ello".data)))) ∧
    (parse_markdown_summary (String.mk ("# SUMMARY\n".data ++ ('h' :: "ello".data))) "v").tldr
      = none := by
  have h := c7_tldr_amended 'h' "ello".data [' '] ('\n' :: '#' :: " next".data) "v"
    (by decide) (by decide) (by decide) (by decide)
  exact ⟨h.1, h.2.1 (by decide),
    h.2.2 (by decide) (by decide) (by decide) (by decide) (by decide)⟩

end Argo
